import Mathlib

/-!
Verification of the explanation-reshaping core of DR-Pred-Explain-Helper
(src/process_explanations.py).

A pandas DataFrame is modelled as an ordered list of column names together
with an ordered list of rows, each row a list of cell values positionally
aligned with the column list.  Cell values are strings, integers (the claims
move numeric strengths around without arithmetic, so the numeric carrier is
irrelevant) or the null marker NaN.  Python dictionary/column lookups that
can raise KeyError are modelled with Option/Except.
-/

/-- A cell value: a string, a number, or the null marker (NaN). -/
inductive Val where
  | str (s : String)
  | num (q : Int)
  | null
deriving DecidableEq

/-- Python truth of `v is NaN` as used by pandas isna. -/
def Val.isNull : Val → Bool
  | Val.null => true
  | _ => false

/-- Python f-string rendering of a cell value (str(NaN) = "nan"). -/
def pyStr : Val → String
  | Val.str s => s
  | Val.num q => toString q
  | Val.null => "nan"

/-- Python `==` on cell values: NaN compares unequal to everything,
including itself (numpy semantics of `x == np.nan`). -/
def pyEq : Val → Val → Bool
  | Val.null, _ => false
  | _, Val.null => false
  | Val.str a, Val.str b => a == b
  | Val.num a, Val.num b => a == b
  | _, _ => false

/-- A pandas DataFrame: ordered column names and ordered rows, each row a
list of cells positionally aligned with the columns. The row index is the
default RangeIndex, i.e. a row's label is its position. -/
structure Table where
  cols : List String
  rows : List (List Val)
deriving DecidableEq

/-- Well-formed frame: distinct column names, every row exactly as long as
the column list. -/
def Table.WF (t : Table) : Prop :=
  t.cols.Nodup ∧ ∀ row ∈ t.rows, row.length = t.cols.length

instance (t : Table) : Decidable t.WF := by
  unfold Table.WF; infer_instance

/-- nth element of a list, `none` past the end. -/
def nth {α : Type} : List α → Nat → Option α
  | [], _ => none
  | a :: _, 0 => some a
  | _ :: l, n + 1 => nth l n

/-- Replace the nth element of a list (no-op past the end). -/
def setNth {α : Type} : List α → Nat → α → List α
  | [], _, _ => []
  | _ :: l, 0, b => b :: l
  | a :: l, n + 1, b => a :: setNth l n b

/-- Position of a column name in a column list (first occurrence). -/
def lookupIdx (c : String) : List String → Option Nat
  | [] => none
  | c' :: cs => if c' = c then some 0 else (lookupIdx c cs).map (· + 1)

/-- Read the cell of a row under a column name; `none` models a pandas
KeyError (missing label). -/
def getCell (cols : List String) (row : List Val) (c : String) : Option Val :=
  (lookupIdx c cols).bind (nth row)

/-- Write the cell of a row under a column name (no-op on a missing label;
the source only writes to labels it has checked or just created). -/
def setCellRow (cols : List String) (row : List Val) (c : String) (v : Val) : List Val :=
  match lookupIdx c cols with
  | none => row
  | some i => setNth row i v

/-- The cell of the table at row position r and column c. -/
def cellAt (t : Table) (r : Nat) (c : String) : Option Val :=
  match nth t.rows r with
  | none => none
  | some row => getCell t.cols row c

/-- `data.at[i, c] = v`: in-place single-cell write. -/
def setAt (t : Table) (i : Nat) (c : String) (v : Val) : Table :=
  match nth t.rows i with
  | none => t
  | some row => { t with rows := setNth t.rows i (setCellRow t.cols row c v) }

/-- `data[c] = np.nan` for a fresh column c: appends the column, null in
every row. -/
def addNullCol (t : Table) (c : String) : Table :=
  { cols := t.cols ++ [c], rows := t.rows.map (fun row => row ++ [Val.null]) }

/-- `data.drop(ds, axis=1)`: remove the named columns (and the positionally
corresponding cells). -/
def dropCols (t : Table) (ds : List String) : Table :=
  let rows' := t.rows.map (fun row =>
    ((t.cols.zip row).filter (fun p => !ds.contains p.1)).map Prod.snd)
  { cols := t.cols.filter (fun c => !ds.contains c), rows := rows' }

/-! ### The column-name matching of the source

`re.match("EXPLANATION_(.*?)", col)` succeeds exactly when col starts with
the literal "EXPLANATION_" (the non-greedy group may be empty and re.match
only anchors at the start).  `re.match("EXPLANATION_(.*?)_FEATURE_NAME",
col)[1]` is the text between "EXPLANATION_" and the first occurrence of
"_FEATURE_NAME" in the remainder, whenever both literals occur in that
order from the start of col.  Matching is implemented over character lists
so that everything reduces in the kernel. -/

/-- Is p a prefix of s (character lists)? -/
def headMatch : List Char → List Char → Bool
  | [], _ => true
  | _ :: _, [] => false
  | p :: ps, c :: cs => p == c && headMatch ps cs

/-- Strip the exact sequence p from the front of s. -/
def dropPre : List Char → List Char → Option (List Char)
  | [], s => some s
  | _ :: _, [] => none
  | p :: ps, c :: cs => if p = c then dropPre ps cs else none

/-- The text before the first occurrence of sep in s, if sep occurs. -/
def firstSplit (sep : List Char) : List Char → Option (List Char)
  | [] => if headMatch sep [] then some [] else none
  | c :: cs =>
    if headMatch sep (c :: cs) then some []
    else (firstSplit sep cs).map (fun l => c :: l)

/-- First maximal run of decimal digits in s (`re.findall("[0-9]+", s)[0]`). -/
def firstRun : List Char → Option (List Char)
  | [] => none
  | c :: cs => if c.isDigit then some (c :: cs.takeWhile Char.isDigit) else firstRun cs

def expPreL : List Char := "EXPLANATION_".toList
def fnSufL : List Char := "_FEATURE_NAME".toList
def stSufL : List Char := "_STRENGTH".toList

/-- `re.match("EXPLANATION_(.*?)", col)` is truthy. -/
def expMatch (col : String) : Bool :=
  headMatch expPreL col.toList

/-- `re.match("EXPLANATION_(.*?)_FEATURE_NAME", col)[1]`, when the regex
matches: the (non-greedy) slot-number group. -/
def fnMatch (col : String) : Option String :=
  match dropPre expPreL col.toList with
  | none => none
  | some rest => (firstSplit fnSufL rest).map (fun l => String.mk l)

/-- Number of null cells of column c (`data[c].isna().sum()`). -/
def nullCount (t : Table) (c : String) : Nat :=
  match lookupIdx c t.cols with
  | none => 0
  | some i =>
    (t.rows.filter (fun row => ((nth row i).getD Val.null).isNull)).length

/-! ### The source functions (src/process_explanations.py) -/

/-- `id_explan_columns(data)`: all columns whose name starts with
"EXPLANATION_", in column order, paired with the slot-number groups of
those of them that match the FEATURE_NAME pattern and are not entirely
null. -/
def id_explan_columns (data : Table) : List String × List String :=
  let number_of_rows := data.rows.length
  let explanation_columns := data.cols.filter (fun c => expMatch c)
  let populated_explanation_col_numbers := explanation_columns.filterMap (fun c =>
    match fnMatch c with
    | some g => if nullCount data c ≠ number_of_rows then some g else none
    | none => none)
  (explanation_columns, populated_explanation_col_numbers)

/-- Python errors the source can raise. `keyError c` is a pandas lookup of
the missing label c; `indexError` is `findall(...)[0]` on an empty list.
`inputFormatError` is modelled from the spec: the spec's section 7 names an
InputFormatError class, but no such class (and no raise statement) exists
anywhere in src/; it is included only so that statements about it can be
compared with what the code actually raises. -/
inductive PyError where
  | keyError (c : String)
  | indexError
  | inputFormatError
deriving DecidableEq

deriving instance DecidableEq for Except

def nameCol (g : String) : String := "EXPLANATION_" ++ g ++ "_FEATURE_NAME"
def strCol (g : String) : String := "EXPLANATION_" ++ g ++ "_STRENGTH"

/-- One iteration of the inner loop of return_explanations_flat: process
slot g of the row snapshot (sc, sr) taken when the row iterator yielded,
while i is the row's label and st the current (mutated) frame.  Mirrors
lines 62-74 of the source; the `pyEq ... null` test is the source's
`row[...] == np.nan`, which is never true. -/
def slotStep (i : Nat) (sc : List String) (sr : List Val) (st : Table) (g : String) :
    Except PyError Table :=
  match getCell sc sr (nameCol g) with
  | none => Except.error (PyError.keyError (nameCol g))
  | some feature_name =>
    let fcol := pyStr feature_name ++ "_EXPLANATION_STRENGTH"
    if st.cols.contains fcol then
      match getCell sc sr (strCol g) with
      | none => Except.error (PyError.keyError (strCol g))
      | some s => Except.ok (setAt st i fcol s)
    else if pyEq feature_name Val.null then
      Except.ok st
    else
      let st1 := addNullCol st fcol
      match getCell sc sr (strCol g) with
      | none => Except.error (PyError.keyError (strCol g))
      | some s => Except.ok (setAt st1 i fcol s)

/-- The inner loop over the populated slot numbers for one row. -/
def rowSlots (i : Nat) (sc : List String) (sr : List Val) :
    List String → Table → Except PyError Table
  | [], st => Except.ok st
  | g :: gs, st =>
    match slotStep i sc sr st g with
    | Except.ok st' => rowSlots i sc sr gs st'
    | Except.error e => Except.error e

/-- One row of the outer loop of return_explanations_flat: take the row's
snapshot from the current frame state (exactly as pandas iterrows yields
it) and run the inner loop over the populated slots. -/
def rowStep (pops : List String) (st : Table) (i : Nat) : Except PyError Table :=
  match nth st.rows i with
  | none => Except.ok st
  | some sr => rowSlots i st.cols sr pops st

/-- The outer loop of return_explanations_flat over the row labels. -/
def rowLoop (pops : List String) : List Nat → Table → Except PyError Table
  | [], st => Except.ok st
  | i :: is, st =>
    match rowStep pops st i with
    | Except.ok st' => rowLoop pops is st'
    | Except.error e => Except.error e

/-- The state of the caller's frame after return_explanations_flat has run
its loops: the source mutates `data` in place (cell writes and new columns)
before building the dropped projection. -/
def flatLoop (data : Table) : Except PyError Table :=
  rowLoop (id_explan_columns data).2 (List.range data.rows.length) data

/-- `return_explanations_flat(data)`: run the in-place loops, then return
`data.drop(explanation_columns, axis=1)`. -/
def return_explanations_flat (data : Table) : Except PyError Table :=
  match flatLoop data with
  | Except.error e => Except.error e
  | Except.ok fin => Except.ok (dropCols fin (id_explan_columns data).1)

/-! ### The melted reshaper -/

/-- `data["orig_row_num"] = data.index`: writes each row's positional label
into an orig_row_num column, appending it when absent. -/
def withRowNums (t : Table) : Table :=
  if t.cols.contains "orig_row_num" then
    let rows' := ((List.range t.rows.length).zip t.rows).map
      (fun p => setCellRow t.cols p.2 "orig_row_num" (Val.num (p.1 : Int)))
    { t with rows := rows' }
  else
    let rows' := ((List.range t.rows.length).zip t.rows).map
      (fun p => p.2 ++ [Val.num (p.1 : Int)])
    { cols := t.cols ++ ["orig_row_num"], rows := rows' }

/-- Positions of the listed columns, failing with the KeyError pandas melt
raises on a missing label. -/
def colIndices (t : Table) : List String → Except PyError (List Nat)
  | [] => Except.ok []
  | c :: cs =>
    match lookupIdx c t.cols with
    | none => Except.error (PyError.keyError c)
    | some i =>
      match colIndices t cs with
      | Except.ok is => Except.ok (i :: is)
      | Except.error e => Except.error e

/-- `t.melt(id_vars=["orig_row_num"], value_vars=vars, var_name=
"variable_number", value_name=valName)`: one output row per (value column,
input row) pair, column-major, with schema
[orig_row_num, variable_number, valName]. -/
def meltTable (t : Table) (vars : List String) (valName : String) :
    Except PyError Table :=
  match lookupIdx "orig_row_num" t.cols with
  | none => Except.error (PyError.keyError "orig_row_num")
  | some i0 =>
    match colIndices t vars with
    | Except.error e => Except.error e
    | Except.ok idxs =>
      let rows' := (vars.zip idxs).flatMap (fun p =>
        t.rows.map (fun row =>
          [(nth row i0).getD Val.null, Val.str p.1, (nth row p.2).getD Val.null]))
      Except.ok { cols := ["orig_row_num", "variable_number", valName], rows := rows' }

/-- Apply `lambda x: re.findall("[0-9]+", x)[0]` to one cell of the
variable_number column; `[0]` on no match is an IndexError. -/
def trimCell (v : Val) : Except PyError Val :=
  match v with
  | Val.str s =>
    match firstRun s.toList with
    | some ds => Except.ok (Val.str (String.mk ds))
    | none => Except.error PyError.indexError
  | _ => Except.error PyError.indexError

def trimRows (j : Nat) : List (List Val) → Except PyError (List (List Val))
  | [] => Except.ok []
  | row :: rest =>
    match trimCell ((nth row j).getD Val.null) with
    | Except.error e => Except.error e
    | Except.ok v =>
      match trimRows j rest with
      | Except.error e => Except.error e
      | Except.ok rest' => Except.ok (setNth row j v :: rest')

/-- `frame["variable_number"] = frame["variable_number"].map(trim)`. -/
def trimVar (t : Table) : Except PyError Table :=
  match lookupIdx "variable_number" t.cols with
  | none => Except.error (PyError.keyError "variable_number")
  | some j =>
    match trimRows j t.rows with
    | Except.error e => Except.error e
    | Except.ok rows' => Except.ok { t with rows := rows' }

def mergeKeys : List String := ["orig_row_num", "variable_number"]

/-- The values of the merge keys of a row. -/
def rowKey (cols : List String) (row : List Val) : List (Option Val) :=
  mergeKeys.map (getCell cols row)

/-- `left.merge(right, on=["orig_row_num", "variable_number"])`: inner
join, left-row order, matching right rows in right order; result columns
are the left columns followed by the non-key right columns. -/
def mergeTables (l r : Table) : Table :=
  let rows' := l.rows.flatMap (fun lr =>
    (r.rows.filter (fun rr => rowKey l.cols lr = rowKey r.cols rr)).map (fun rr =>
      lr ++ ((r.cols.zip rr).filter (fun p => !mergeKeys.contains p.1)).map Prod.snd))
  { cols := l.cols ++ r.cols.filter (fun c => !mergeKeys.contains c), rows := rows' }

/-- Lines 98-136 of the source up to and including the merge: the melted,
trimmed and re-joined table that return_melted_dataframe builds before its
final (in-place, None-returning) drop. -/
def meltedSteps (data : Table) : Except PyError Table :=
  let populated := (id_explan_columns data).2
  let explan_feature_name_cols := populated.map nameCol
  let explan_feature_str_cols := populated.map strCol
  let d := withRowNums data
  match meltTable d explan_feature_name_cols "feature_name" with
  | Except.error e => Except.error e
  | Except.ok mn =>
    match meltTable d explan_feature_str_cols "feature_strength" with
    | Except.error e => Except.error e
    | Except.ok ms =>
      match trimVar mn with
      | Except.error e => Except.error e
      | Except.ok mn' =>
        match trimVar ms with
        | Except.error e => Except.error e
        | Except.ok ms' => Except.ok (mergeTables mn' ms')

/-- The three-column projection the merged table is reduced to by the final
drop of variable_number (the drop mutates the merged frame in place). -/
def meltedDropped (data : Table) : Except PyError Table :=
  match meltedSteps data with
  | Except.error e => Except.error e
  | Except.ok m => Except.ok (dropCols m ["variable_number"])

/-- `return_melted_dataframe(data)`: the final statement is
`merged.drop(["variable_number"], inplace=True, axis=1)`, and
DataFrame.drop with inplace=True returns None, so the function returns
None (modelled as `none`) whenever no step raised. -/
def return_melted_dataframe (data : Table) : Except PyError (Option Table) :=
  match meltedSteps data with
  | Except.error e => Except.error e
  | Except.ok _ => Except.ok none

/-- The state of the caller's frame after return_melted_dataframe: the one
in-place mutation of `data` is the orig_row_num assignment. -/
def melt_mutated_input (data : Table) : Table := withRowNums data

/-! ### Spec-side comparison definitions -/

/-- Modelled from the spec (P4): the row count the spec claims for the
melted output — the sum, over all rows, of the number of populated slots
whose feature-name value is non-null for that row. -/
def specMeltedCount (t : Table) : Nat :=
  let pops := (id_explan_columns t).2
  (t.rows.map (fun row =>
    (pops.filter (fun g =>
      match getCell t.cols row (nameCol g) with
      | some v => !v.isNull
      | none => false)).length)).sum

/-- Numeric value of a slot-number string (digits in base 10). -/
def slotNat (g : String) : Nat :=
  g.toList.foldl (fun a c => a * 10 + (c.toNat - 48)) 0

/-- The cell of a row under column c is present and non-null. -/
def cellNonNull (cols : List String) (row : List Val) (c : String) : Bool :=
  match getCell cols row c with
  | some v => !v.isNull
  | none => false

/-- The value the variable_number trim writes for a melted row (the first
digit run of the middle cell's string); used to state the trim step's
effect. -/
def trimW (row : List Val) : Val :=
  match (nth row 1).getD Val.null with
  | Val.str s => Val.str (String.mk ((firstRun s.toList).getD []))
  | _ => Val.null

/-! ### Concrete tables used by the claim theorems.

scenarioTable is the spec section 8 scenario: two rows, slot 0 and slot 1,
row 1's slot 1 fully null, plus a passthrough pid column. -/

def scenarioTable : Table :=
  { cols := ["pid", "EXPLANATION_0_FEATURE_NAME", "EXPLANATION_0_STRENGTH",
             "EXPLANATION_1_FEATURE_NAME", "EXPLANATION_1_STRENGTH"],
    rows := [[Val.num 10, Val.str "age", Val.num 5, Val.str "income", Val.num (-2)],
             [Val.num 11, Val.str "income", Val.num 3, Val.null, Val.null]] }

/-- A table with columns but zero rows. -/
def zeroRowTable : Table :=
  { cols := ["pid", "EXPLANATION_0_FEATURE_NAME", "EXPLANATION_0_STRENGTH"], rows := [] }

/-- A populated feature-name column whose matching strength column is
missing entirely. -/
def missingStrengthTable : Table :=
  { cols := ["EXPLANATION_1_FEATURE_NAME"], rows := [[Val.str "age"]] }

/-- Slot columns appearing in descending numeric order. -/
def reversedColsTable : Table :=
  { cols := ["EXPLANATION_2_FEATURE_NAME", "EXPLANATION_1_FEATURE_NAME"],
    rows := [[Val.str "a", Val.str "b"]] }

/-! ### The naming convention

The spec's data model constrains input tables: explanation columns come in
pairs EXPLANATION_n_FEATURE_NAME / EXPLANATION_n_STRENGTH with n a
non-negative integer.  Convention t says every column of t that starts
with "EXPLANATION_" has exactly one of these two shapes with a non-empty
digit group, and t is well-formed. -/

/-- Is suf a suffix of s (character lists)? -/
def endsL (suf s : List Char) : Bool := headMatch suf.reverse s.reverse

def esL : List Char := "_EXPLANATION_STRENGTH".toList

/-- Does a column name end with "_EXPLANATION_STRENGTH" (the shape of every
column the flat loop writes to)? -/
def EScol (c : String) : Bool := endsL esL c.toList

/-- After "EXPLANATION_", a canonical column is a non-empty digit run
followed by exactly "_FEATURE_NAME" or exactly "_STRENGTH". -/
def canonicalRest (rest : List Char) : Bool :=
  let ds := rest.takeWhile Char.isDigit
  (decide (ds ≠ [])) &&
    ((decide (rest.drop ds.length = fnSufL)) || (decide (rest.drop ds.length = stSufL)))

/-- c obeys the naming convention: if it starts with "EXPLANATION_" it is a
canonical explanation column. -/
def colOK (c : String) : Bool :=
  match dropPre expPreL c.toList with
  | some rest => canonicalRest rest
  | none => true

/-- The spec's input-table constraint. -/
def Convention (t : Table) : Prop :=
  t.WF ∧ ∀ c ∈ t.cols, colOK c = true

instance (t : Table) : Decidable (Convention t) := by
  unfold Convention; infer_instance

/-! ### Theorems -/

/-! #### Positional list lemmas -/

theorem nth_nil {α : Type} (i : Nat) : nth ([] : List α) i = none := by
  cases i <;> rfl

theorem nth_ge_length {α : Type} : ∀ (l : List α) (i : Nat), l.length ≤ i → nth l i = none := by
  intro l
  induction l with
  | nil => intro i _; exact nth_nil i
  | cons a l ih =>
    intro i h
    cases i with
    | zero => simp at h
    | succ n => exact ih n (by simpa using h)

theorem nth_lt_length {α : Type} : ∀ (l : List α) (i : Nat), i < l.length → ∃ a, nth l i = some a := by
  intro l
  induction l with
  | nil => intro i h; simp at h
  | cons a l ih =>
    intro i h
    cases i with
    | zero => exact ⟨a, rfl⟩
    | succ n => exact ih n (by simpa using h)

theorem nth_some_lt {α : Type} : ∀ (l : List α) (i : Nat) (a : α), nth l i = some a → i < l.length := by
  intro l
  induction l with
  | nil => intro i a h; rw [nth_nil] at h; cases h
  | cons b l ih =>
    intro i a h
    cases i with
    | zero => simp
    | succ n => simpa using ih n a h

theorem nth_append_left {α : Type} :
    ∀ (l₁ l₂ : List α) (i : Nat), i < l₁.length → nth (l₁ ++ l₂) i = nth l₁ i := by
  intro l₁
  induction l₁ with
  | nil => intro l₂ i h; simp at h
  | cons a l ih =>
    intro l₂ i h
    cases i with
    | zero => rfl
    | succ n => exact ih l₂ n (by simpa using h)

theorem nth_append_right {α : Type} :
    ∀ (l₁ l₂ : List α) (i : Nat), nth (l₁ ++ l₂) (l₁.length + i) = nth l₂ i := by
  intro l₁
  induction l₁ with
  | nil => intro l₂ i; simp
  | cons a l ih =>
    intro l₂ i
    have : l.length + 1 + i = (l.length + i) + 1 := by omega
    simp only [List.cons_append, List.length_cons, this]
    exact ih l₂ i

theorem nth_mem {α : Type} : ∀ (l : List α) (i : Nat) (a : α), nth l i = some a → a ∈ l := by
  intro l
  induction l with
  | nil => intro i a h; rw [nth_nil] at h; cases h
  | cons b l ih =>
    intro i a h
    cases i with
    | zero => cases h; exact List.mem_cons_self _ _
    | succ n => exact List.mem_cons_of_mem _ (ih n a h)

theorem length_setNth {α : Type} : ∀ (l : List α) (i : Nat) (b : α),
    (setNth l i b).length = l.length := by
  intro l
  induction l with
  | nil => intro i b; rfl
  | cons a l ih =>
    intro i b
    cases i with
    | zero => rfl
    | succ n =>
      show (a :: setNth l n b).length = (a :: l).length
      simp [ih n b]

theorem nth_setNth_self {α : Type} : ∀ (l : List α) (i : Nat) (b : α), i < l.length →
    nth (setNth l i b) i = some b := by
  intro l
  induction l with
  | nil => intro i b h; simp at h
  | cons a l ih =>
    intro i b h
    cases i with
    | zero => rfl
    | succ n => exact ih n b (by simpa using h)

theorem nth_setNth_ne {α : Type} : ∀ (l : List α) (i j : Nat) (b : α), i ≠ j →
    nth (setNth l i b) j = nth l j := by
  intro l
  induction l with
  | nil => intro i j b _; rfl
  | cons a l ih =>
    intro i j b hij
    cases i with
    | zero =>
      cases j with
      | zero => exact absurd rfl hij
      | succ m => rfl
    | succ n =>
      cases j with
      | zero => rfl
      | succ m => exact ih n m b (by omega)

theorem lookupIdx_some_nth : ∀ (l : List String) (c : String) (i : Nat),
    lookupIdx c l = some i → nth l i = some c := by
  intro l
  induction l with
  | nil => intro c i h; cases h
  | cons a l ih =>
    intro c i h
    unfold lookupIdx at h
    by_cases hac : a = c
    · simp [hac] at h; subst h; subst hac; rfl
    · simp [hac] at h
      obtain ⟨j, hj, rfl⟩ := h
      exact ih c j hj

theorem lookupIdx_none_iff : ∀ (l : List String) (c : String),
    lookupIdx c l = none ↔ c ∉ l := by
  intro l
  induction l with
  | nil => intro c; simp [lookupIdx]
  | cons a l ih =>
    intro c
    unfold lookupIdx
    by_cases hac : a = c
    · simp [hac]
    · simp [hac, Option.map_eq_none', ih c, Ne.symm hac]

theorem lookupIdx_isSome_of_mem : ∀ (l : List String) (c : String), c ∈ l →
    ∃ i, lookupIdx c l = some i := by
  intro l c hc
  cases h : lookupIdx c l with
  | none => exact absurd hc ((lookupIdx_none_iff l c).1 h)
  | some i => exact ⟨i, rfl⟩

theorem lookupIdx_app_left : ∀ (l₁ l₂ : List String) (c : String) (i : Nat),
    lookupIdx c l₁ = some i → lookupIdx c (l₁ ++ l₂) = some i := by
  intro l₁
  induction l₁ with
  | nil => intro l₂ c i h; cases h
  | cons a l ih =>
    intro l₂ c i h
    unfold lookupIdx at h ⊢
    by_cases hac : a = c
    · simpa [hac] using h
    · simp [hac] at h ⊢
      obtain ⟨j, hj, rfl⟩ := h
      exact ⟨j, ih l₂ c j hj, rfl⟩

theorem lookupIdx_app_right : ∀ (l₁ l₂ : List String) (c : String), c ∉ l₁ →
    lookupIdx c (l₁ ++ l₂) = (lookupIdx c l₂).map (· + l₁.length) := by
  intro l₁
  induction l₁ with
  | nil => intro l₂ c _; simp
  | cons a l ih =>
    intro l₂ c hc
    have hac : a ≠ c := fun h => hc (h ▸ List.mem_cons_self a l)
    have hcl : c ∉ l := fun h => hc (List.mem_cons_of_mem a h)
    have hstep : lookupIdx c ((a :: l) ++ l₂) = (lookupIdx c (l ++ l₂)).map (· + 1) := by
      simp [lookupIdx, hac]
    rw [hstep, ih l₂ c hcl]
    cases lookupIdx c l₂ with
    | none => rfl
    | some j =>
      simp only [Option.map_some', List.length_cons]
      exact congrArg some (by omega)

theorem lookupIdx_lt : ∀ (l : List String) (c : String) (i : Nat),
    lookupIdx c l = some i → i < l.length := by
  intro l c i h
  exact nth_some_lt l i c (lookupIdx_some_nth l c i h)

theorem length_filter_eq_iff {α : Type} (p : α → Bool) :
    ∀ (l : List α), (l.filter p).length = l.length ↔ ∀ a ∈ l, p a = true := by
  intro l
  induction l with
  | nil => simp
  | cons a l ih =>
    by_cases ha : p a = true
    · simp [ha, ih]
    · have hle := List.length_filter_le p l
      have hpa : p a = false := by simpa using ha
      have hfc : List.filter p (a :: l) = List.filter p l := by
        simp [List.filter_cons, hpa]
      rw [hfc, List.length_cons]
      constructor
      · intro h
        exact absurd h (by omega)
      · intro h
        exact absurd (h a (List.mem_cons_self a l)) ha

/-! #### Character-list matching lemmas -/

theorem headMatch_self_app : ∀ (p r : List Char), headMatch p (p ++ r) = true := by
  intro p
  induction p with
  | nil => intro r; rfl
  | cons a p ih => intro r; simp [headMatch, ih r]

theorem dropPre_app : ∀ (p s : List Char), dropPre p (p ++ s) = some s := by
  intro p
  induction p with
  | nil => intro s; rfl
  | cons a p ih => intro s; simp [dropPre, ih s]

theorem dropPre_eq : ∀ (p s rest : List Char), dropPre p s = some rest → s = p ++ rest := by
  intro p
  induction p with
  | nil =>
    intro s rest h
    cases h
    rfl
  | cons a p ih =>
    intro s rest h
    cases s with
    | nil => cases h
    | cons c cs =>
      unfold dropPre at h
      by_cases hac : a = c
      · subst hac
        simp only [if_pos rfl] at h
        simp [ih cs rest h]
      · simp [hac] at h

theorem dropPre_some_of_headMatch : ∀ (p s : List Char), headMatch p s = true →
    ∃ rest, dropPre p s = some rest := by
  intro p
  induction p with
  | nil => intro s _; exact ⟨s, rfl⟩
  | cons a p ih =>
    intro s h
    cases s with
    | nil => cases h
    | cons c cs =>
      unfold headMatch at h
      rw [Bool.and_eq_true] at h
      have hac : a = c := by simpa using h.1
      obtain ⟨rest, hrest⟩ := ih cs h.2
      exact ⟨rest, by simp [dropPre, hac, hrest]⟩

theorem firstSplit_here (sep r : List Char) : firstSplit sep (sep ++ r) = some [] := by
  cases hs : sep ++ r with
  | nil => simp [firstSplit, hs ▸ headMatch_self_app sep r]
  | cons c cs => simp [firstSplit, hs ▸ headMatch_self_app sep r]

theorem firstSplit_skip (sep : List Char) (c : Char) (cs : List Char)
    (h : headMatch sep (c :: cs) = false) :
    firstSplit sep (c :: cs) = (firstSplit sep cs).map (fun l => c :: l) := by
  simp [firstSplit, h]

theorem headMatch_us_digit (sepTail : List Char) (d : Char) (rest : List Char)
    (h : d.isDigit = true) : headMatch ('_' :: sepTail) (d :: rest) = false := by
  have hne : '_' ≠ d := by
    intro he
    rw [← he] at h
    exact absurd h (by decide)
  unfold headMatch
  rw [beq_eq_false_iff_ne.mpr hne]
  rfl

theorem firstSplit_digits_skip (sepTail : List Char) :
    ∀ (g s : List Char), g.all Char.isDigit = true →
    firstSplit ('_' :: sepTail) (g ++ s) =
      (firstSplit ('_' :: sepTail) s).map (fun l => g ++ l) := by
  intro g
  induction g with
  | nil =>
    intro s _
    simp
  | cons d ds ih =>
    intro s hall
    rw [List.all_cons, Bool.and_eq_true] at hall
    rw [List.cons_append, firstSplit_skip _ _ _ (headMatch_us_digit sepTail d _ hall.1),
      ih s hall.2]
    cases firstSplit ('_' :: sepTail) s with
    | none => rfl
    | some l => rfl

theorem takeWhile_all_app {α : Type} (p : α → Bool) :
    ∀ (l₁ l₂ : List α), l₁.all p = true →
    (l₁ ++ l₂).takeWhile p = l₁ ++ l₂.takeWhile p := by
  intro l₁
  induction l₁ with
  | nil => intro l₂ _; rfl
  | cons a l ih =>
    intro l₂ hall
    rw [List.all_cons, Bool.and_eq_true] at hall
    simp [List.takeWhile_cons, hall.1, ih l₂ hall.2]

theorem firstRun_skip : ∀ (pre s : List Char), pre.all (fun c => !c.isDigit) = true →
    firstRun (pre ++ s) = firstRun s := by
  intro pre
  induction pre with
  | nil => intro s _; rfl
  | cons a l ih =>
    intro s hall
    rw [List.all_cons, Bool.and_eq_true] at hall
    have ha : a.isDigit = false := by simpa using hall.1
    simp [firstRun, ha, ih s hall.2]

theorem firstRun_digits (d : Char) (ds tail : List Char)
    (hd : d.isDigit = true) (hds : ds.all Char.isDigit = true)
    (ht : ∀ c cs, tail = c :: cs → c.isDigit = false) :
    firstRun ((d :: ds) ++ tail) = some (d :: ds) := by
  have htake : (ds ++ tail).takeWhile Char.isDigit = ds := by
    rw [takeWhile_all_app Char.isDigit ds tail hds]
    cases tail with
    | nil => simp
    | cons c cs => simp [List.takeWhile_cons, ht c cs rfl]
  simp [firstRun, hd, htake]

theorem drop_takeWhile_length (p : Char → Bool) :
    ∀ (l : List Char), l.drop (l.takeWhile p).length = l.dropWhile p := by
  intro l
  induction l with
  | nil => rfl
  | cons a l ih =>
    by_cases ha : p a = true
    · simp [List.takeWhile_cons, List.dropWhile_cons, ha, ih]
    · have ha' : p a = false := by simpa using ha
      simp [List.takeWhile_cons, List.dropWhile_cons, ha']

/-! #### Naming-convention consequences -/

theorem toList_append (s t : String) : (s ++ t).toList = s.toList ++ t.toList :=
  String.data_append s t

theorem toList_nameCol (g : String) :
    (nameCol g).toList = expPreL ++ (g.toList ++ fnSufL) := by
  unfold nameCol
  rw [toList_append, toList_append]
  simp [expPreL, fnSufL, String.toList, List.append_assoc]

theorem toList_strCol (g : String) :
    (strCol g).toList = expPreL ++ (g.toList ++ stSufL) := by
  unfold strCol
  rw [toList_append, toList_append]
  simp [expPreL, stSufL, String.toList, List.append_assoc]

theorem canonicalRest_elim (rest : List Char) (h : canonicalRest rest = true) :
    ∃ ds, ds ≠ [] ∧ ds.all Char.isDigit = true ∧
      (rest = ds ++ fnSufL ∨ rest = ds ++ stSufL) := by
  unfold canonicalRest at h
  rw [Bool.and_eq_true, decide_eq_true_iff, Bool.or_eq_true, decide_eq_true_iff,
    decide_eq_true_iff] at h
  refine ⟨rest.takeWhile Char.isDigit, h.1, ?_, ?_⟩
  · rw [List.all_eq_true]
    intro c hc
    exact List.mem_takeWhile_imp hc
  · have hsplit : rest.takeWhile Char.isDigit ++ rest.dropWhile Char.isDigit = rest :=
      List.takeWhile_append_dropWhile Char.isDigit rest
    rw [drop_takeWhile_length] at h
    cases h.2 with
    | inl hfn =>
      left
      rw [← hfn]
      exact hsplit.symm
    | inr hst =>
      right
      rw [← hst]
      exact hsplit.symm

theorem fnMatch_of_toList_fn (c : String) (ds : List Char)
    (hall : ds.all Char.isDigit = true)
    (h : c.toList = expPreL ++ (ds ++ fnSufL)) : fnMatch c = some (String.mk ds) := by
  have hdp : dropPre expPreL c.toList = some (ds ++ fnSufL) := by
    rw [h]
    exact dropPre_app _ _
  have hfn : fnSufL = '_' :: "FEATURE_NAME".toList := by decide
  have hsplit : firstSplit fnSufL (ds ++ fnSufL) = some ds := by
    rw [hfn, firstSplit_digits_skip _ ds _ hall]
    have h0 : firstSplit ('_' :: "FEATURE_NAME".toList) ('_' :: "FEATURE_NAME".toList) =
        some [] := by
      simpa using firstSplit_here ('_' :: "FEATURE_NAME".toList) []
    rw [h0]
    simp
  unfold fnMatch
  rw [hdp]
  simp [hsplit]

theorem fnMatch_none_of_toList_st (c : String) (ds : List Char)
    (hall : ds.all Char.isDigit = true)
    (h : c.toList = expPreL ++ (ds ++ stSufL)) : fnMatch c = none := by
  have hdp : dropPre expPreL c.toList = some (ds ++ stSufL) := by
    rw [h]
    exact dropPre_app _ _
  have hfn : fnSufL = '_' :: "FEATURE_NAME".toList := by decide
  have hsplit : firstSplit fnSufL (ds ++ stSufL) = none := by
    rw [hfn, firstSplit_digits_skip _ ds _ hall]
    have h0 : firstSplit ('_' :: "FEATURE_NAME".toList) stSufL = none := by decide
    rw [h0]
    rfl
  unfold fnMatch
  rw [hdp]
  simp [hsplit]

theorem expMatch_of_toList (c : String) (rest : List Char)
    (h : c.toList = expPreL ++ rest) : expMatch c = true := by
  unfold expMatch
  rw [h]
  exact headMatch_self_app expPreL rest

/-- Under the convention, a column whose name matches the FEATURE_NAME
pattern with group g is exactly the string EXPLANATION_g_FEATURE_NAME, and
g is a non-empty digit string. -/
theorem fnMatch_canonical (c : String) (hok : colOK c = true) (g : String)
    (h : fnMatch c = some g) :
    c = nameCol g ∧ g.toList ≠ [] ∧ g.toList.all Char.isDigit = true := by
  have hdp : ∃ rest, dropPre expPreL c.toList = some rest := by
    unfold fnMatch at h
    cases hd : dropPre expPreL c.toList with
    | none => rw [hd] at h; cases h
    | some rest => exact ⟨rest, rfl⟩
  obtain ⟨rest, hrest⟩ := hdp
  have hcl : c.toList = expPreL ++ rest := dropPre_eq expPreL c.toList rest hrest
  have hcan : canonicalRest rest = true := by
    unfold colOK at hok
    rw [hrest] at hok
    exact hok
  obtain ⟨ds, hne, hall, hcase⟩ := canonicalRest_elim rest hcan
  cases hcase with
  | inl hfn =>
    have hc' : c.toList = expPreL ++ (ds ++ fnSufL) := by rw [hcl, hfn]
    have := fnMatch_of_toList_fn c ds hall hc'
    rw [this] at h
    have hg : String.mk ds = g := by injection h
    subst hg
    refine ⟨?_, hne, hall⟩
    apply String.ext
    show c.toList = (nameCol (String.mk ds)).toList
    rw [toList_nameCol, hc']
    rfl
  | inr hst =>
    have hc' : c.toList = expPreL ++ (ds ++ stSufL) := by rw [hcl, hst]
    rw [fnMatch_none_of_toList_st c ds hall hc'] at h
    cases h

theorem fnMatch_nameCol (g : String) (hall : g.toList.all Char.isDigit = true) :
    fnMatch (nameCol g) = some g := by
  have := fnMatch_of_toList_fn (nameCol g) g.toList hall (by rw [toList_nameCol])
  simpa using this

/-- C1: the melted reshaper does compute a merged table whose projection
after dropping variable_number has exactly the three claimed columns, but
the function's final statement is a drop with inplace=True, which returns
None — so on the spec's own scenario (and on every input) the function
returns None, not a table, contradicting the claim and the function's own
docstring and return annotation. -/
theorem C1_melted_returns_none :
    return_melted_dataframe scenarioTable = Except.ok none ∧
    (meltedDropped scenarioTable).toOption.map Table.cols =
      some ["orig_row_num", "feature_name", "feature_strength"] := by
  decide

/-- C3: on the spec scenario, row 1's slot 1 feature name is null, yet the
flat output gains a nan_EXPLANATION_STRENGTH column: the source's null
check is `row[...] == np.nan`, which is always False, so the null slot is
not skipped and the new columns are not exactly the non-null feature
names. -/
theorem C3_null_slot_not_skipped :
    (return_explanations_flat scenarioTable).toOption.map Table.cols =
      some ["pid", "age_EXPLANATION_STRENGTH", "income_EXPLANATION_STRENGTH",
            "nan_EXPLANATION_STRENGTH"] := by
  decide

/-- C9: on a zero-row table the classifier returns an empty populated
list, the flat reshaper returns the zero-row passthrough projection, and
nothing raises — but the melted reshaper returns None (inplace drop)
rather than the zero-row table it built. -/
theorem C9_zero_rows_eval :
    id_explan_columns zeroRowTable =
      (["EXPLANATION_0_FEATURE_NAME", "EXPLANATION_0_STRENGTH"], []) ∧
    return_explanations_flat zeroRowTable = Except.ok { cols := ["pid"], rows := [] } ∧
    (meltedSteps zeroRowTable).toOption.map (fun m => m.rows.length) = some 0 ∧
    return_melted_dataframe zeroRowTable = Except.ok none := by
  decide

/-- C2 counterexample: on the spec scenario the merged melted table has
2 rows x 2 populated slots = 4 rows, while the claimed count (sum of
non-null populated slots per row) is 3: pandas melt keeps null feature
names and the inner merge matches them, so null candidates are not
discarded. -/
theorem C2_counterexample :
    (meltedSteps scenarioTable).toOption.map (fun m => m.rows.length) = some 4 ∧
    specMeltedCount scenarioTable = 3 := by
  decide

/-- C5 counterexample: with a populated feature-name column whose strength
column is missing, the flat reshaper fails with a pandas KeyError naming
the missing column, not with an InputFormatError (no such class exists in
the source). -/
theorem C5_counterexample :
    return_explanations_flat missingStrengthTable =
      Except.error (PyError.keyError "EXPLANATION_1_STRENGTH") ∧
    return_explanations_flat missingStrengthTable ≠
      Except.error PyError.inputFormatError := by
  decide

/-- C7 counterexample: when the slot columns appear in descending numeric
order, the classifier returns the populated slot numbers in column order,
["2", "1"], which is not ascending by numeric index. -/
theorem C7_counterexample :
    (id_explan_columns reversedColsTable).2 = ["2", "1"] ∧
    ¬ List.Pairwise (fun a b => slotNat a ≤ slotNat b)
        (id_explan_columns reversedColsTable).2 := by
  decide

/-- C8 counterexample: both reshapers mutate the caller's frame on the
spec scenario — the flat loop leaves the input with extra feature-strength
columns, and the melted reshaper leaves it with an added orig_row_num
column — so a call is not free of effects on the input table. -/
theorem C8_counterexample :
    (flatLoop scenarioTable).toOption.map Table.cols ≠ some scenarioTable.cols ∧
    melt_mutated_input scenarioTable ≠ scenarioTable ∧
    "orig_row_num" ∈ (melt_mutated_input scenarioTable).cols ∧
    "orig_row_num" ∉ scenarioTable.cols := by
  decide

/-! #### Characterizing the classifier's output -/

theorem id_explan_fst (t : Table) :
    (id_explan_columns t).1 = t.cols.filter (fun c => expMatch c) := rfl

theorem id_explan_snd (t : Table) :
    (id_explan_columns t).2 = (id_explan_columns t).1.filterMap (fun c =>
      match fnMatch c with
      | some g => if nullCount t c ≠ t.rows.length then some g else none
      | none => none) := rfl

theorem getCell_eq_nth (cols : List String) (row : List Val) (c : String) (i : Nat)
    (hli : lookupIdx c cols = some i) : getCell cols row c = nth row i := by
  unfold getCell
  rw [hli]
  rfl

/-- Under the convention, g is in the populated list iff it is a non-empty
digit string whose feature-name column exists and is not all-null. -/
theorem pops_mem_iff (t : Table) (hc : Convention t) (g : String) :
    g ∈ (id_explan_columns t).2 ↔
      g.toList ≠ [] ∧ g.toList.all Char.isDigit = true ∧ nameCol g ∈ t.cols ∧
        nullCount t (nameCol g) ≠ t.rows.length := by
  constructor
  · intro hg
    rw [id_explan_snd] at hg
    obtain ⟨c, hcmem, hcF⟩ := List.mem_filterMap.mp hg
    rw [id_explan_fst] at hcmem
    have hccols : c ∈ t.cols := (List.mem_filter.mp hcmem).1
    have hok : colOK c = true := hc.2 c hccols
    cases hf : fnMatch c with
    | none => rw [hf] at hcF; cases hcF
    | some g' =>
      rw [hf] at hcF
      have hcF' : (if nullCount t c ≠ t.rows.length then some g' else none) = some g := hcF
      by_cases hnn : nullCount t c ≠ t.rows.length
      · rw [if_pos hnn] at hcF'
        have hgg : g' = g := by injection hcF'
        subst hgg
        obtain ⟨hcname, hne, hall⟩ := fnMatch_canonical c hok g' hf
        subst hcname
        exact ⟨hne, hall, hccols, hnn⟩
      · rw [if_neg hnn] at hcF'
        cases hcF'
  · rintro ⟨hne, hall, hmem, hnn⟩
    rw [id_explan_snd]
    apply List.mem_filterMap.mpr
    refine ⟨nameCol g, ?_, ?_⟩
    · rw [id_explan_fst]
      exact List.mem_filter.mpr ⟨hmem, expMatch_of_toList _ _ (toList_nameCol g)⟩
    · rw [fnMatch_nameCol g hall]
      show (if nullCount t (nameCol g) ≠ t.rows.length then some g else none) = some g
      rw [if_pos hnn]

theorem nullCount_ne_iff (t : Table) (c : String) (hwf : t.WF) (i : Nat)
    (hli : lookupIdx c t.cols = some i) :
    nullCount t c ≠ t.rows.length ↔
      ∃ row ∈ t.rows, cellNonNull t.cols row c = true := by
  have hi : i < t.cols.length := lookupIdx_lt t.cols c i hli
  have hiff := length_filter_eq_iff (fun row => ((nth row i).getD Val.null).isNull) t.rows
  unfold nullCount
  rw [hli]
  constructor
  · intro hne
    by_contra hnex
    apply hne
    apply hiff.mpr
    intro row hrow
    by_contra hnull
    apply hnex
    refine ⟨row, hrow, ?_⟩
    obtain ⟨v, hv⟩ := nth_lt_length row i (by rw [hwf.2 row hrow]; exact hi)
    unfold cellNonNull
    rw [getCell_eq_nth t.cols row c i hli, hv]
    rw [hv] at hnull
    simp only [Option.getD_some] at hnull
    simp [Bool.not_eq_true] at hnull ⊢
    simpa using hnull
  · rintro ⟨row, hrow, hnn⟩ hEq
    have hall := hiff.mp hEq row hrow
    unfold cellNonNull at hnn
    rw [getCell_eq_nth t.cols row c i hli] at hnn
    obtain ⟨v, hv⟩ := nth_lt_length row i (by rw [hwf.2 row hrow]; exact hi)
    rw [hv] at hnn hall
    simp only [Option.getD_some] at hall
    simp [hall] at hnn

/-- C6: under the naming convention, the classifier's populated list
contains a slot index g (a non-empty digit string) exactly when the column
EXPLANATION_g_FEATURE_NAME exists and has at least one non-null value; a
slot whose feature-name column is all-null is excluded. -/
theorem C6_slot_discovery (t : Table) (hc : Convention t) (g : String)
    (hne : g.toList ≠ []) (hall : g.toList.all Char.isDigit = true) :
    g ∈ (id_explan_columns t).2 ↔
      nameCol g ∈ t.cols ∧ ∃ row ∈ t.rows, cellNonNull t.cols row (nameCol g) = true := by
  rw [pops_mem_iff t hc g]
  constructor
  · rintro ⟨-, -, hmem, hnn⟩
    obtain ⟨i, hi⟩ := lookupIdx_isSome_of_mem _ _ hmem
    exact ⟨hmem, (nullCount_ne_iff t _ hc.1 i hi).mp hnn⟩
  · rintro ⟨hmem, hex⟩
    obtain ⟨i, hi⟩ := lookupIdx_isSome_of_mem _ _ hmem
    exact ⟨hne, hall, hmem, (nullCount_ne_iff t _ hc.1 i hi).mpr hex⟩

/-- Witness for C6 on the spec scenario: slot 0 is populated. -/
theorem C6_witness : "0" ∈ (id_explan_columns scenarioTable).2 :=
  (C6_slot_discovery scenarioTable (by decide) "0" (by decide) (by decide)).mpr (by decide)

/-- C10: under the naming convention, every populated slot index g comes
from the column EXPLANATION_g_FEATURE_NAME, which is itself a member of the
returned explanation_columns list (so dropping explanation_columns removes
every column populated-slot data was read from). -/
theorem C10_populated_within_explanation_columns (t : Table) (hc : Convention t) :
    ∀ g ∈ (id_explan_columns t).2, nameCol g ∈ (id_explan_columns t).1 := by
  intro g hg
  obtain ⟨-, -, hmem, -⟩ := (pops_mem_iff t hc g).mp hg
  rw [id_explan_fst]
  exact List.mem_filter.mpr ⟨hmem, expMatch_of_toList _ _ (toList_nameCol g)⟩

/-- Witness for C10 on the spec scenario. -/
theorem C10_witness : nameCol "0" ∈ (id_explan_columns scenarioTable).1 :=
  C10_populated_within_explanation_columns scenarioTable (by decide) "0" (by decide)

theorem pops_sublist (t : Table) :
    (id_explan_columns t).2.Sublist ((id_explan_columns t).1.filterMap fnMatch) := by
  rw [id_explan_snd]
  have key : ∀ (l : List String), (l.filterMap (fun c =>
      match fnMatch c with
      | some g => if nullCount t c ≠ t.rows.length then some g else none
      | none => none)).Sublist (l.filterMap fnMatch) := by
    intro l
    induction l with
    | nil => simp
    | cons c l ih =>
      cases hf : fnMatch c with
      | none =>
        simpa [List.filterMap_cons, hf] using ih
      | some g =>
        by_cases hnn : nullCount t c ≠ t.rows.length
        · simpa [List.filterMap_cons, hf, hnn] using ih.cons₂ g
        · simpa [List.filterMap_cons, hf, hnn] using ih.cons g
  exact key _

theorem pops_nodup (t : Table) (hc : Convention t) : (id_explan_columns t).2.Nodup := by
  have hnd : ((id_explan_columns t).1).Nodup := by
    rw [id_explan_fst]
    exact hc.1.1.filter _
  have hok : ∀ c ∈ (id_explan_columns t).1, colOK c = true := by
    intro c hcm
    rw [id_explan_fst] at hcm
    exact hc.2 c (List.mem_filter.mp hcm).1
  rw [id_explan_snd]
  revert hnd hok
  generalize (id_explan_columns t).1 = l
  induction l with
  | nil =>
    intro _ _
    simp
  | cons c l ih =>
    intro hnd hok
    rw [List.nodup_cons] at hnd
    have hih := ih hnd.2 (fun c' hc' => hok c' (List.mem_cons_of_mem c hc'))
    cases hf : fnMatch c with
    | none =>
      simpa [List.filterMap_cons, hf] using hih
    | some g =>
      by_cases hnn : nullCount t c ≠ t.rows.length
      · have hstep : List.filterMap (fun c =>
            match fnMatch c with
            | some g => if nullCount t c ≠ t.rows.length then some g else none
            | none => none) (c :: l) =
            g :: List.filterMap (fun c =>
            match fnMatch c with
            | some g => if nullCount t c ≠ t.rows.length then some g else none
            | none => none) l := by
          simp [List.filterMap_cons, hf, hnn]
        rw [hstep, List.nodup_cons]
        refine ⟨?_, hih⟩
        intro hmem
        obtain ⟨c', hc'mem, hc'F⟩ := List.mem_filterMap.mp hmem
        have hf' : fnMatch c' = some g := by
          cases hf2 : fnMatch c' with
          | none => rw [hf2] at hc'F; cases hc'F
          | some g2 =>
            rw [hf2] at hc'F
            have hc'F2 : (if nullCount t c' ≠ t.rows.length then some g2 else none) =
                some g := hc'F
            by_cases h2 : nullCount t c' ≠ t.rows.length
            · rw [if_pos h2] at hc'F2
              have : g2 = g := by injection hc'F2
              rw [this]
            · rw [if_neg h2] at hc'F2
              cases hc'F2
        have hcan := fnMatch_canonical c (hok c (List.mem_cons_self c l)) g hf
        have hcan' := fnMatch_canonical c' (hok c' (List.mem_cons_of_mem c hc'mem)) g hf'
        have : c' = c := by rw [hcan'.1, hcan.1]
        rw [this] at hc'mem
        exact hnd.1 hc'mem
      · have heq : nullCount t c = t.rows.length := not_not.mp hnn
        have hstep : List.filterMap (fun c =>
            match fnMatch c with
            | some g => if nullCount t c ≠ t.rows.length then some g else none
            | none => none) (c :: l) =
            List.filterMap (fun c =>
            match fnMatch c with
            | some g => if nullCount t c ≠ t.rows.length then some g else none
            | none => none) l := by
          simp [List.filterMap_cons, hf, heq]
        rw [hstep]
        exact hih

/-- C7 amended: under the naming convention the populated slot list has no
duplicates, and it follows the table's column order: whenever the slot
numbers extracted from the feature-name columns are strictly increasing in
column order, the populated list is strictly increasing by numeric value. -/
theorem C7_order_and_nodup (t : Table) (hc : Convention t) :
    (id_explan_columns t).2.Nodup ∧
      (List.Pairwise (fun a b => slotNat a < slotNat b)
          ((id_explan_columns t).1.filterMap fnMatch) →
        List.Pairwise (fun a b => slotNat a < slotNat b) (id_explan_columns t).2) :=
  ⟨pops_nodup t hc, fun hp => hp.sublist (pops_sublist t)⟩

/-- Witness for C7 on the spec scenario, where the columns do appear in
ascending slot order. -/
theorem C7_witness :
    (id_explan_columns scenarioTable).2.Nodup ∧
      List.Pairwise (fun a b => slotNat a < slotNat b)
        (id_explan_columns scenarioTable).2 := by
  have h := C7_order_and_nodup scenarioTable (by decide)
  exact ⟨h.1, h.2 (by decide)⟩

/-! #### The in-place mutation of the melted reshaper -/

theorem nth_zip_range' {β : Type} (f : Nat × List Val → β) :
    ∀ (l : List (List Val)) (k r : Nat),
    nth (((List.range' k l.length).zip l).map f) r =
      (nth l r).map (fun row => f (k + r, row)) := by
  intro l
  induction l with
  | nil =>
    intro k r
    simp [nth_nil]
  | cons row l ih =>
    intro k r
    have hr : List.range' k (row :: l).length = k :: List.range' (k + 1) l.length := by
      simp [List.range'_succ]
    rw [hr]
    cases r with
    | zero => simp [nth]
    | succ m =>
      show nth (((List.range' (k + 1) l.length).zip l).map f) m = _
      rw [ih (k + 1) m]
      have hk : k + 1 + m = k + (m + 1) := by omega
      rw [hk]
      rfl

theorem nth_zip_range {β : Type} (f : Nat × List Val → β) (l : List (List Val)) (r : Nat) :
    nth (((List.range l.length).zip l).map f) r = (nth l r).map (fun row => f (r, row)) := by
  rw [List.range_eq_range']
  have := nth_zip_range' f l 0 r
  simpa using this

/-- C8 amended: the reshapers are not pure in the input — precisely, the
melted reshaper leaves the caller's frame equal to the input with exactly
one appended orig_row_num column holding each row's position, all original
columns and cells unchanged (and, per the counterexample, the flat loop
likewise adds feature-strength columns to the input).  The classifier
itself reads only. -/
theorem C8_melt_mutation (t : Table) (hwf : t.WF) (hno : "orig_row_num" ∉ t.cols) :
    (melt_mutated_input t).cols = t.cols ++ ["orig_row_num"] ∧
    (∀ r c, c ∈ t.cols → cellAt (melt_mutated_input t) r c = cellAt t r c) ∧
    (∀ r, r < t.rows.length →
      cellAt (melt_mutated_input t) r "orig_row_num" = some (Val.num (r : Int))) := by
  have hcont : t.cols.contains "orig_row_num" = false := by
    simpa using hno
  have hmelt : melt_mutated_input t =
      { cols := t.cols ++ ["orig_row_num"],
        rows := ((List.range t.rows.length).zip t.rows).map
          (fun p => p.2 ++ [Val.num (p.1 : Int)]) } := by
    unfold melt_mutated_input withRowNums
    rw [hcont]
    rfl
  refine ⟨by rw [hmelt], ?_, ?_⟩
  · intro r c hc
    rw [hmelt]
    unfold cellAt
    show (match nth (((List.range t.rows.length).zip t.rows).map
        (fun p => p.2 ++ [Val.num (p.1 : Int)])) r with
      | none => none
      | some row => getCell (t.cols ++ ["orig_row_num"]) row c) = _
    rw [nth_zip_range]
    cases hrow : nth t.rows r with
    | none => rfl
    | some row =>
      show getCell (t.cols ++ ["orig_row_num"]) (row ++ [Val.num (r : Int)]) c =
        getCell t.cols row c
      obtain ⟨i, hi⟩ := lookupIdx_isSome_of_mem t.cols c hc
      have hlen : row.length = t.cols.length := hwf.2 row (nth_mem t.rows r row hrow)
      have hilt : i < row.length := by
        rw [hlen]
        exact lookupIdx_lt t.cols c i hi
      unfold getCell
      rw [lookupIdx_app_left t.cols ["orig_row_num"] c i hi, hi]
      show nth (row ++ [Val.num (r : Int)]) i = nth row i
      exact nth_append_left row [Val.num (r : Int)] i hilt
  · intro r hr
    rw [hmelt]
    unfold cellAt
    show (match nth (((List.range t.rows.length).zip t.rows).map
        (fun p => p.2 ++ [Val.num (p.1 : Int)])) r with
      | none => none
      | some row => getCell (t.cols ++ ["orig_row_num"]) row "orig_row_num") = _
    rw [nth_zip_range]
    obtain ⟨row, hrow⟩ := nth_lt_length t.rows r hr
    rw [hrow]
    show getCell (t.cols ++ ["orig_row_num"]) (row ++ [Val.num (r : Int)]) "orig_row_num" =
      some (Val.num (r : Int))
    have hlen : row.length = t.cols.length := hwf.2 row (nth_mem t.rows r row hrow)
    unfold getCell
    rw [lookupIdx_app_right t.cols ["orig_row_num"] "orig_row_num" hno]
    have h1 : lookupIdx "orig_row_num" ["orig_row_num"] = some 0 := rfl
    rw [h1]
    show nth (row ++ [Val.num (r : Int)]) (0 + t.cols.length) = some (Val.num (r : Int))
    have h2 : 0 + t.cols.length = row.length + 0 := by omega
    rw [h2, nth_append_right row [Val.num (r : Int)] 0]
    rfl

/-- Witness for the C8 amended theorem on the spec scenario. -/
theorem C8_witness :
    (melt_mutated_input scenarioTable).cols = scenarioTable.cols ++ ["orig_row_num"] ∧
    cellAt (melt_mutated_input scenarioTable) 0 "pid" = cellAt scenarioTable 0 "pid" ∧
    cellAt (melt_mutated_input scenarioTable) 1 "orig_row_num" = some (Val.num 1) := by
  have h := C8_melt_mutation scenarioTable (by decide) (by decide)
  exact ⟨h.1, h.2.1 0 "pid" (by decide), h.2.2 1 (by decide)⟩

/-! #### Support for the melted-count theorem -/

theorem length_flatMap' {α β : Type} (f : α → List β) : ∀ (l : List α),
    (l.flatMap f).length = (l.map (fun a => (f a).length)).sum := by
  intro l
  induction l with
  | nil => rfl
  | cons a l ih => simp [List.flatMap_cons, ih]

theorem flatMap_congr' {α β : Type} (f g : α → List β) : ∀ (l : List α),
    (∀ a ∈ l, f a = g a) → l.flatMap f = l.flatMap g := by
  intro l
  induction l with
  | nil => intro _; rfl
  | cons a l ih =>
    intro h
    simp only [List.flatMap_cons]
    rw [h a (List.mem_cons_self a l), ih (fun a' ha' => h a' (List.mem_cons_of_mem a ha'))]

theorem zip_map_self {α β : Type} (f : α → β) : ∀ (l : List α),
    l.zip (l.map f) = l.map (fun a => (a, f a)) := by
  intro l
  induction l with
  | nil => rfl
  | cons a l ih => simp [List.zip_cons_cons, ih]

theorem sum_const_nat {α : Type} (n : Nat) : ∀ (l : List α),
    (l.map (fun _ => n)).sum = l.length * n := by
  intro l
  induction l with
  | nil => simp
  | cons a l ih =>
    simp [ih]
    ring

theorem sum_indicator_zero (g : String) : ∀ (P : List String), g ∉ P →
    (P.map (fun g' => if g' = g then 1 else 0)).sum = 0 := by
  intro P
  induction P with
  | nil => intro _; rfl
  | cons a P ih =>
    intro hg
    have ha : a ≠ g := fun h => hg (h ▸ List.mem_cons_self a P)
    have hP : g ∉ P := fun h => hg (List.mem_cons_of_mem a h)
    simp [ha, ih hP]

theorem sum_indicator_one (g : String) : ∀ (P : List String), P.Nodup → g ∈ P →
    (P.map (fun g' => if g' = g then 1 else 0)).sum = 1 := by
  intro P
  induction P with
  | nil => intro _ h; cases h
  | cons a P ih =>
    intro hnd hg
    rw [List.nodup_cons] at hnd
    by_cases ha : a = g
    · subst ha
      simp [sum_indicator_zero a P hnd.1]
    · have hg' : g ∈ P := by
        cases List.mem_cons.mp hg with
        | inl h => exact absurd h.symm ha
        | inr h => exact h
      simp [ha, ih hnd.2 hg']

theorem zip_range'_filter_zero : ∀ (l : List (List Val)) (k r : Nat), r < k →
    ((((List.range' k l.length).zip l)).filter (fun p => decide (p.1 = r))).length = 0 := by
  intro l
  induction l with
  | nil => intro k r _; rfl
  | cons row l ih =>
    intro k r hr
    have hrange : List.range' k (row :: l).length = k :: List.range' (k + 1) l.length := by
      simp [List.range'_succ]
    rw [hrange]
    have hkr : k ≠ r := by omega
    have hk : (decide (k = r)) = false := decide_eq_false hkr
    simp only [List.zip_cons_cons, List.filter_cons, hk]
    exact ih (k + 1) r (by omega)

theorem zip_range'_filter_one : ∀ (l : List (List Val)) (k r : Nat), k ≤ r → r < k + l.length →
    ((((List.range' k l.length).zip l)).filter (fun p => decide (p.1 = r))).length = 1 := by
  intro l
  induction l with
  | nil =>
    intro k r h1 h2
    have h0 : ([] : List (List Val)).length = 0 := rfl
    rw [h0] at h2
    omega
  | cons row l ih =>
    intro k r h1 h2
    have hrange : List.range' k (row :: l).length = k :: List.range' (k + 1) l.length := by
      simp [List.range'_succ]
    rw [hrange]
    by_cases hk : k = r
    · subst hk
      rw [List.zip_cons_cons, List.filter_cons_of_pos (by simp), List.length_cons,
        zip_range'_filter_zero l (k + 1) k (by omega)]
    · rw [List.zip_cons_cons, List.filter_cons_of_neg (by simp [hk])]
      exact ih (k + 1) r (by omega) (by simp at h2; omega)

theorem colIndices_eq (t' : Table) : ∀ (cs : List String), (∀ c ∈ cs, c ∈ t'.cols) →
    colIndices t' cs = Except.ok (cs.map (fun c => (lookupIdx c t'.cols).getD 0)) := by
  intro cs
  induction cs with
  | nil => intro _; rfl
  | cons c cs ih =>
    intro hmem
    obtain ⟨i, hi⟩ := lookupIdx_isSome_of_mem t'.cols c (hmem c (List.mem_cons_self c cs))
    unfold colIndices
    rw [hi, ih (fun c' hc' => hmem c' (List.mem_cons_of_mem c hc'))]
    simp [hi]

theorem meltTable_ok (t' : Table) (vars : List String) (valName : String) (i0 : Nat)
    (h0 : lookupIdx "orig_row_num" t'.cols = some i0)
    (hmem : ∀ c ∈ vars, c ∈ t'.cols) :
    meltTable t' vars valName = Except.ok
      { cols := ["orig_row_num", "variable_number", valName],
        rows := vars.flatMap (fun c => t'.rows.map (fun row =>
          [(nth row i0).getD Val.null, Val.str c,
           (nth row ((lookupIdx c t'.cols).getD 0)).getD Val.null])) } := by
  have hrows : (vars.zip (vars.map (fun c => (lookupIdx c t'.cols).getD 0))).flatMap
      (fun p => t'.rows.map (fun row =>
        [(nth row i0).getD Val.null, Val.str p.1, (nth row p.2).getD Val.null])) =
      vars.flatMap (fun c => t'.rows.map (fun row =>
        [(nth row i0).getD Val.null, Val.str c,
         (nth row ((lookupIdx c t'.cols).getD 0)).getD Val.null])) := by
    rw [zip_map_self, List.flatMap_map]
  unfold meltTable
  rw [h0, colIndices_eq t' vars hmem]
  show Except.ok
      (Table.mk ["orig_row_num", "variable_number", valName]
        ((vars.zip (vars.map (fun c => (lookupIdx c t'.cols).getD 0))).flatMap
          (fun p => t'.rows.map (fun row =>
            [(nth row i0).getD Val.null, Val.str p.1, (nth row p.2).getD Val.null])))) =
      Except.ok _
  rw [hrows]

theorem filter_const_false {α : Type} : ∀ (l : List α), l.filter (fun _ => false) = [] := by
  intro l
  induction l with
  | nil => rfl
  | cons a l ih => simp [List.filter_cons, ih]

theorem firstRun_expCol (g : String) (suf : List Char) (hne : g.toList ≠ [])
    (hall : g.toList.all Char.isDigit = true)
    (hsuf : ∀ c cs, suf = c :: cs → c.isDigit = false) :
    firstRun (expPreL ++ (g.toList ++ suf)) = some g.toList := by
  rw [firstRun_skip expPreL _ (by decide)]
  cases hg : g.toList with
  | nil => exact absurd hg hne
  | cons d ds =>
    have hall' := hall
    rw [hg, List.all_cons, Bool.and_eq_true] at hall'
    exact firstRun_digits d ds suf hall'.1 hall'.2 hsuf

theorem fnSuf_head : ∀ (c : Char) (cs : List Char), fnSufL = c :: cs → c.isDigit = false := by
  intro c cs h
  have hfn : fnSufL = '_' :: "FEATURE_NAME".toList := by decide
  rw [hfn] at h
  have hc : c = '_' := by injection h with h1 _; exact h1.symm
  rw [hc]
  decide

theorem stSuf_head : ∀ (c : Char) (cs : List Char), stSufL = c :: cs → c.isDigit = false := by
  intro c cs h
  have hst : stSufL = '_' :: "STRENGTH".toList := by decide
  rw [hst] at h
  have hc : c = '_' := by injection h with h1 _; exact h1.symm
  rw [hc]
  decide

theorem trimCell_expCol (s g : String) (suf : List Char)
    (hs : s.toList = expPreL ++ (g.toList ++ suf)) (hne : g.toList ≠ [])
    (hall : g.toList.all Char.isDigit = true)
    (hsuf : ∀ c cs, suf = c :: cs → c.isDigit = false) :
    trimCell (Val.str s) = Except.ok (Val.str g) := by
  have h1 : firstRun s.toList = some g.toList := by
    rw [hs]
    exact firstRun_expCol g suf hne hall hsuf
  show (match firstRun s.toList with
    | some ds => Except.ok (Val.str (String.mk ds))
    | none => Except.error PyError.indexError) = Except.ok (Val.str g)
  rw [h1]
  rfl

theorem trimRows_eq (w : List Val → Val) : ∀ (rows : List (List Val)) (j : Nat),
    (∀ row ∈ rows, trimCell ((nth row j).getD Val.null) = Except.ok (w row)) →
    trimRows j rows = Except.ok (rows.map (fun row => setNth row j (w row))) := by
  intro rows
  induction rows with
  | nil => intro j _; rfl
  | cons row rest ih =>
    intro j hok
    unfold trimRows
    rw [hok row (List.mem_cons_self row rest),
      ih j (fun r hr => hok r (List.mem_cons_of_mem row hr))]
    rfl

theorem trimVar_ok (valName : String) (rows : List (List Val)) (w : List Val → Val)
    (hok : ∀ row ∈ rows, trimCell ((nth row 1).getD Val.null) = Except.ok (w row)) :
    trimVar (Table.mk ["orig_row_num", "variable_number", valName] rows) =
      Except.ok (Table.mk ["orig_row_num", "variable_number", valName]
        (rows.map (fun row => setNth row 1 (w row)))) := by
  have h1 : lookupIdx "variable_number" ["orig_row_num", "variable_number", valName] =
      some 1 := rfl
  unfold trimVar
  rw [h1]
  show (match trimRows 1 rows with
    | Except.error e => Except.error e
    | Except.ok rows' =>
      Except.ok (Table.mk ["orig_row_num", "variable_number", valName] rows')) =
    Except.ok (Table.mk ["orig_row_num", "variable_number", valName]
      (rows.map (fun row => setNth row 1 (w row))))
  rw [trimRows_eq w rows 1 hok]

theorem rowKey_cols3 (x : String) (a b c : Val) :
    rowKey ["orig_row_num", "variable_number", x] [a, b, c] = [some a, some b] := rfl

/-- Counting the inner merge: when both melted sides enumerate exactly one
row per (slot, original row) pair with key (row position, slot number), the
inner join on that key produces exactly one match per left row, so the
merged row count is (number of slots) x (number of rows). -/
theorem merge_melted_count (x y : String) (P : List String) (hnd : P.Nodup)
    (rows : List (List Val)) (Bl Br : String → Nat × List Val → List Val)
    (hkeyL : ∀ g ∈ P, ∀ p ∈ (List.range rows.length).zip rows,
      rowKey ["orig_row_num", "variable_number", x] (Bl g p) =
        [some (Val.num (p.1 : Int)), some (Val.str g)])
    (hkeyR : ∀ g ∈ P, ∀ p ∈ (List.range rows.length).zip rows,
      rowKey ["orig_row_num", "variable_number", y] (Br g p) =
        [some (Val.num (p.1 : Int)), some (Val.str g)]) :
    (mergeTables
      (Table.mk ["orig_row_num", "variable_number", x]
        (P.flatMap (fun g => ((List.range rows.length).zip rows).map (Bl g))))
      (Table.mk ["orig_row_num", "variable_number", y]
        (P.flatMap (fun g => ((List.range rows.length).zip rows).map (Br g))))).rows.length
      = P.length * rows.length := by
  have hcount : ∀ g ∈ P, ∀ p ∈ (List.range rows.length).zip rows,
      ((P.flatMap (fun g' => ((List.range rows.length).zip rows).map (Br g'))).filter
        (fun rr => decide (rowKey ["orig_row_num", "variable_number", x] (Bl g p) =
          rowKey ["orig_row_num", "variable_number", y] rr))).length = 1 := by
    intro g hg p hp
    have hkey := hkeyL g hg p hp
    have hr0 : p.1 < rows.length := List.mem_range.mp (List.of_mem_zip hp).1
    rw [List.filter_flatMap, length_flatMap']
    have hmapc : P.map (fun g' => ((((List.range rows.length).zip rows).map (Br g')).filter
        (fun rr => decide (rowKey ["orig_row_num", "variable_number", x] (Bl g p) =
          rowKey ["orig_row_num", "variable_number", y] rr))).length) =
        P.map (fun g' => if g' = g then 1 else 0) := by
      apply List.map_congr_left
      intro g' hg'
      rw [List.filter_map, List.length_map]
      by_cases hgg : g' = g
      · subst hgg
        have hcongr : ((List.range rows.length).zip rows).filter
            ((fun rr => decide (rowKey ["orig_row_num", "variable_number", x] (Bl g' p) =
              rowKey ["orig_row_num", "variable_number", y] rr)) ∘ (Br g')) =
            ((List.range rows.length).zip rows).filter (fun q => decide (q.1 = p.1)) := by
          apply List.filter_congr
          intro q hq
          show decide (rowKey _ (Bl g' p) = rowKey _ (Br g' q)) = decide (q.1 = p.1)
          rw [hkey, hkeyR g' hg' q hq]
          apply decide_eq_decide.mpr
          constructor
          · intro h
            have h1 : (p.1 : Int) = (q.1 : Int) := by
              have := List.head_eq_of_cons_eq h
              simpa using this
            omega
          · intro h
            rw [h]
        rw [hcongr, List.range_eq_range']
        rw [if_pos rfl]
        exact zip_range'_filter_one rows 0 p.1 (by omega) (by omega)
      · have hcongr : ((List.range rows.length).zip rows).filter
            ((fun rr => decide (rowKey ["orig_row_num", "variable_number", x] (Bl g p) =
              rowKey ["orig_row_num", "variable_number", y] rr)) ∘ (Br g')) =
            ((List.range rows.length).zip rows).filter (fun _ => false) := by
          apply List.filter_congr
          intro q hq
          show decide (rowKey _ (Bl g p) = rowKey _ (Br g' q)) = false
          rw [hkey, hkeyR g' hg' q hq]
          apply decide_eq_false
          intro h
          apply hgg
          have h2 := List.head_eq_of_cons_eq (List.tail_eq_of_cons_eq h)
          have h3 : (Val.str g : Val) = Val.str g' := by simpa using h2
          injection h3 with h4
          exact h4.symm
        rw [hcongr, filter_const_false]
        simp [hgg]
    rw [hmapc, sum_indicator_one g P hnd hg]
  have hrows : (mergeTables
      (Table.mk ["orig_row_num", "variable_number", x]
        (P.flatMap (fun g => ((List.range rows.length).zip rows).map (Bl g))))
      (Table.mk ["orig_row_num", "variable_number", y]
        (P.flatMap (fun g => ((List.range rows.length).zip rows).map (Br g))))).rows =
      (P.flatMap (fun g => ((List.range rows.length).zip rows).map (Bl g))).flatMap
        (fun lr =>
          ((P.flatMap (fun g' => ((List.range rows.length).zip rows).map (Br g'))).filter
            (fun rr => decide (rowKey ["orig_row_num", "variable_number", x] lr =
              rowKey ["orig_row_num", "variable_number", y] rr))).map (fun rr =>
            lr ++ (((["orig_row_num", "variable_number", y]).zip rr).filter
              (fun q => !mergeKeys.contains q.1)).map Prod.snd)) := rfl
  rw [hrows, length_flatMap']
  have hone : (P.flatMap (fun g => ((List.range rows.length).zip rows).map (Bl g))).map
      (fun lr =>
        (((P.flatMap (fun g' => ((List.range rows.length).zip rows).map (Br g'))).filter
          (fun rr => decide (rowKey ["orig_row_num", "variable_number", x] lr =
            rowKey ["orig_row_num", "variable_number", y] rr))).map (fun rr =>
          lr ++ (((["orig_row_num", "variable_number", y]).zip rr).filter
            (fun q => !mergeKeys.contains q.1)).map Prod.snd)).length) =
      (P.flatMap (fun g => ((List.range rows.length).zip rows).map (Bl g))).map
        (fun _ => 1) := by
    apply List.map_congr_left
    intro lr hlr
    rw [List.length_map]
    obtain ⟨g, hgP, hlr2⟩ := List.mem_flatMap.mp hlr
    obtain ⟨p, hp, hBl⟩ := List.mem_map.mp hlr2
    rw [← hBl]
    exact hcount g hgP p hp
  rw [hone, sum_const_nat 1, length_flatMap']
  have hlen : P.map (fun g => (((List.range rows.length).zip rows).map (Bl g)).length) =
      P.map (fun _ => rows.length) := by
    apply List.map_congr_left
    intro g _
    rw [List.length_map, List.length_zip, List.length_range]
    omega
  rw [hlen, sum_const_nat rows.length]
  omega

theorem trim_middle (a c : Val) (s g : String) (suf : List Char)
    (hs : s.toList = expPreL ++ (g.toList ++ suf)) (hne : g.toList ≠ [])
    (hall : g.toList.all Char.isDigit = true)
    (hsuf : ∀ c' cs, suf = c' :: cs → c'.isDigit = false) :
    trimCell ((nth [a, Val.str s, c] 1).getD Val.null) = Except.ok (Val.str g) ∧
    trimW [a, Val.str s, c] = Val.str g := by
  have hrun : firstRun s.toList = some g.toList := by
    rw [hs]
    exact firstRun_expCol g suf hne hall hsuf
  constructor
  · show trimCell (Val.str s) = Except.ok (Val.str g)
    exact trimCell_expCol s g suf hs hne hall hsuf
  · show (match (Val.str s : Val) with
      | Val.str s => Val.str (String.mk ((firstRun s.toList).getD []))
      | _ => Val.null) = Val.str g
    rw [show (match (Val.str s : Val) with
      | Val.str s => Val.str (String.mk ((firstRun s.toList).getD []))
      | _ => Val.null) = Val.str (String.mk ((firstRun s.toList).getD [])) from rfl]
    rw [hrun]
    rfl

/-- C2 amended: under the naming convention, with every populated slot's
strength column present and no pre-existing orig_row_num column, the
merged melted table keeps the null-feature-name candidates: its row count
is (number of populated slots) x (number of input rows) rather than the
claimed sum of non-null populated slots per row.  (The function as written
then returns None instead of this table; see the C1 theorem.) -/
theorem C2_melted_count (t : Table) (hc : Convention t)
    (hstr : ∀ g ∈ (id_explan_columns t).2, strCol g ∈ t.cols)
    (hno : "orig_row_num" ∉ t.cols) :
    ∃ m, meltedSteps t = Except.ok m ∧
      m.rows.length = (id_explan_columns t).2.length * t.rows.length := by
  have hcont : t.cols.contains "orig_row_num" = false := by simpa using hno
  have hd : withRowNums t = Table.mk (t.cols ++ ["orig_row_num"])
      (((List.range t.rows.length).zip t.rows).map
        (fun p => p.2 ++ [Val.num (p.1 : Int)])) := by
    unfold withRowNums
    rw [hcont]
    rfl
  have hi0 : lookupIdx "orig_row_num" (t.cols ++ ["orig_row_num"]) = some t.cols.length := by
    rw [lookupIdx_app_right t.cols ["orig_row_num"] "orig_row_num" hno]
    show (some 0).map (· + t.cols.length) = some t.cols.length
    simp
  have hmemN : ∀ c ∈ (id_explan_columns t).2.map nameCol, c ∈ t.cols ++ ["orig_row_num"] := by
    intro c hcm
    obtain ⟨g, hg, rfl⟩ := List.mem_map.mp hcm
    exact List.mem_append_left _ ((pops_mem_iff t hc g).mp hg).2.2.1
  have hmemS : ∀ c ∈ (id_explan_columns t).2.map strCol, c ∈ t.cols ++ ["orig_row_num"] := by
    intro c hcm
    obtain ⟨g, hg, rfl⟩ := List.mem_map.mp hcm
    exact List.mem_append_left _ (hstr g hg)
  have hmn : meltTable (Table.mk (t.cols ++ ["orig_row_num"])
        (((List.range t.rows.length).zip t.rows).map
          (fun p => p.2 ++ [Val.num (p.1 : Int)])))
      ((id_explan_columns t).2.map nameCol) "feature_name" =
      Except.ok (Table.mk ["orig_row_num", "variable_number", "feature_name"]
        (((id_explan_columns t).2.map nameCol).flatMap (fun c =>
          (((List.range t.rows.length).zip t.rows).map
            (fun p => p.2 ++ [Val.num (p.1 : Int)])).map (fun row =>
            [(nth row t.cols.length).getD Val.null, Val.str c,
             (nth row ((lookupIdx c (t.cols ++ ["orig_row_num"])).getD 0)).getD Val.null])))) :=
    meltTable_ok _ _ _ t.cols.length hi0 hmemN
  have hms : meltTable (Table.mk (t.cols ++ ["orig_row_num"])
        (((List.range t.rows.length).zip t.rows).map
          (fun p => p.2 ++ [Val.num (p.1 : Int)])))
      ((id_explan_columns t).2.map strCol) "feature_strength" =
      Except.ok (Table.mk ["orig_row_num", "variable_number", "feature_strength"]
        (((id_explan_columns t).2.map strCol).flatMap (fun c =>
          (((List.range t.rows.length).zip t.rows).map
            (fun p => p.2 ++ [Val.num (p.1 : Int)])).map (fun row =>
            [(nth row t.cols.length).getD Val.null, Val.str c,
             (nth row ((lookupIdx c (t.cols ++ ["orig_row_num"])).getD 0)).getD Val.null])))) :=
    meltTable_ok _ _ _ t.cols.length hi0 hmemS
  have hokN : ∀ row ∈ (((id_explan_columns t).2.map nameCol).flatMap (fun c =>
      (((List.range t.rows.length).zip t.rows).map
        (fun p => p.2 ++ [Val.num (p.1 : Int)])).map (fun row =>
        [(nth row t.cols.length).getD Val.null, Val.str c,
         (nth row ((lookupIdx c (t.cols ++ ["orig_row_num"])).getD 0)).getD Val.null]))),
      trimCell ((nth row 1).getD Val.null) = Except.ok (trimW row) := by
    intro row hrow
    obtain ⟨c, hcm, hrow2⟩ := List.mem_flatMap.mp hrow
    obtain ⟨row0, hrow0, hF⟩ := List.mem_map.mp hrow2
    obtain ⟨g, hg, hgc⟩ := List.mem_map.mp hcm
    subst hgc
    have hprops := (pops_mem_iff t hc g).mp hg
    have hF' : row = [(nth row0 t.cols.length).getD Val.null, Val.str (nameCol g),
        (nth row0 ((lookupIdx (nameCol g) (t.cols ++ ["orig_row_num"])).getD 0)).getD
          Val.null] := hF.symm
    rw [hF']
    have htm := trim_middle ((nth row0 t.cols.length).getD Val.null)
      ((nth row0 ((lookupIdx (nameCol g) (t.cols ++ ["orig_row_num"])).getD 0)).getD Val.null)
      (nameCol g) g fnSufL (toList_nameCol g) hprops.1 hprops.2.1 fnSuf_head
    rw [htm.2]
    exact htm.1
  have hokS : ∀ row ∈ (((id_explan_columns t).2.map strCol).flatMap (fun c =>
      (((List.range t.rows.length).zip t.rows).map
        (fun p => p.2 ++ [Val.num (p.1 : Int)])).map (fun row =>
        [(nth row t.cols.length).getD Val.null, Val.str c,
         (nth row ((lookupIdx c (t.cols ++ ["orig_row_num"])).getD 0)).getD Val.null]))),
      trimCell ((nth row 1).getD Val.null) = Except.ok (trimW row) := by
    intro row hrow
    obtain ⟨c, hcm, hrow2⟩ := List.mem_flatMap.mp hrow
    obtain ⟨row0, hrow0, hF⟩ := List.mem_map.mp hrow2
    obtain ⟨g, hg, hgc⟩ := List.mem_map.mp hcm
    subst hgc
    have hprops := (pops_mem_iff t hc g).mp hg
    have hF' : row = [(nth row0 t.cols.length).getD Val.null, Val.str (strCol g),
        (nth row0 ((lookupIdx (strCol g) (t.cols ++ ["orig_row_num"])).getD 0)).getD
          Val.null] := hF.symm
    rw [hF']
    have htm := trim_middle ((nth row0 t.cols.length).getD Val.null)
      ((nth row0 ((lookupIdx (strCol g) (t.cols ++ ["orig_row_num"])).getD 0)).getD Val.null)
      (strCol g) g stSufL (toList_strCol g) hprops.1 hprops.2.1 stSuf_head
    rw [htm.2]
    exact htm.1
  have hmn' := trimVar_ok "feature_name" _ trimW hokN
  have hms' := trimVar_ok "feature_strength" _ trimW hokS
  have hsteps : meltedSteps t = Except.ok (mergeTables
      (Table.mk ["orig_row_num", "variable_number", "feature_name"]
        ((((id_explan_columns t).2.map nameCol).flatMap (fun c =>
          (((List.range t.rows.length).zip t.rows).map
            (fun p => p.2 ++ [Val.num (p.1 : Int)])).map (fun row =>
            [(nth row t.cols.length).getD Val.null, Val.str c,
             (nth row ((lookupIdx c (t.cols ++ ["orig_row_num"])).getD 0)).getD
               Val.null]))).map (fun row => setNth row 1 (trimW row))))
      (Table.mk ["orig_row_num", "variable_number", "feature_strength"]
        ((((id_explan_columns t).2.map strCol).flatMap (fun c =>
          (((List.range t.rows.length).zip t.rows).map
            (fun p => p.2 ++ [Val.num (p.1 : Int)])).map (fun row =>
            [(nth row t.cols.length).getD Val.null, Val.str c,
             (nth row ((lookupIdx c (t.cols ++ ["orig_row_num"])).getD 0)).getD
               Val.null]))).map (fun row => setNth row 1 (trimW row))))) := by
    unfold meltedSteps
    rw [hd]
    simp only [hmn, hms, hmn', hms']
  refine ⟨_, hsteps, ?_⟩
  simp only [List.map_flatMap, List.map_map, List.flatMap_map]
  refine merge_melted_count "feature_name" "feature_strength" ((id_explan_columns t).2)
    (pops_nodup t hc) t.rows _ _ ?_ ?_
  · intro g hg p hp
    have hrowmem : p.2 ∈ t.rows := (List.of_mem_zip hp).2
    have hlen : p.2.length = t.cols.length := hc.1.2 p.2 hrowmem
    have hprops := (pops_mem_iff t hc g).mp hg
    have hA : (nth (p.2 ++ [Val.num (p.1 : Int)]) t.cols.length).getD Val.null =
        Val.num (p.1 : Int) := by
      rw [← hlen]
      have h1 : p.2.length + 0 = p.2.length := by omega
      have h2 := nth_append_right p.2 [Val.num (p.1 : Int)] 0
      rw [h1] at h2
      rw [h2]
      rfl
    dsimp only [Function.comp]
    rw [hA]
    have htm := trim_middle (Val.num (p.1 : Int))
      ((nth (p.2 ++ [Val.num (p.1 : Int)])
        ((lookupIdx (nameCol g) (t.cols ++ ["orig_row_num"])).getD 0)).getD Val.null)
      (nameCol g) g fnSufL (toList_nameCol g) hprops.1 hprops.2.1 fnSuf_head
    show rowKey ["orig_row_num", "variable_number", "feature_name"]
      [Val.num (p.1 : Int), trimW [Val.num (p.1 : Int), Val.str (nameCol g),
        (nth (p.2 ++ [Val.num (p.1 : Int)])
          ((lookupIdx (nameCol g) (t.cols ++ ["orig_row_num"])).getD 0)).getD Val.null],
       (nth (p.2 ++ [Val.num (p.1 : Int)])
         ((lookupIdx (nameCol g) (t.cols ++ ["orig_row_num"])).getD 0)).getD Val.null] =
      [some (Val.num (p.1 : Int)), some (Val.str g)]
    rw [rowKey_cols3, htm.2]
  · intro g hg p hp
    have hrowmem : p.2 ∈ t.rows := (List.of_mem_zip hp).2
    have hlen : p.2.length = t.cols.length := hc.1.2 p.2 hrowmem
    have hprops := (pops_mem_iff t hc g).mp hg
    have hA : (nth (p.2 ++ [Val.num (p.1 : Int)]) t.cols.length).getD Val.null =
        Val.num (p.1 : Int) := by
      rw [← hlen]
      have h1 : p.2.length + 0 = p.2.length := by omega
      have h2 := nth_append_right p.2 [Val.num (p.1 : Int)] 0
      rw [h1] at h2
      rw [h2]
      rfl
    dsimp only [Function.comp]
    rw [hA]
    have htm := trim_middle (Val.num (p.1 : Int))
      ((nth (p.2 ++ [Val.num (p.1 : Int)])
        ((lookupIdx (strCol g) (t.cols ++ ["orig_row_num"])).getD 0)).getD Val.null)
      (strCol g) g stSufL (toList_strCol g) hprops.1 hprops.2.1 stSuf_head
    show rowKey ["orig_row_num", "variable_number", "feature_strength"]
      [Val.num (p.1 : Int), trimW [Val.num (p.1 : Int), Val.str (strCol g),
        (nth (p.2 ++ [Val.num (p.1 : Int)])
          ((lookupIdx (strCol g) (t.cols ++ ["orig_row_num"])).getD 0)).getD Val.null],
       (nth (p.2 ++ [Val.num (p.1 : Int)])
         ((lookupIdx (strCol g) (t.cols ++ ["orig_row_num"])).getD 0)).getD Val.null] =
      [some (Val.num (p.1 : Int)), some (Val.str g)]
    rw [rowKey_cols3, htm.2]

/-- Witness for the C2 amended theorem on the spec scenario: 2 populated
slots x 2 rows = 4 merged rows. -/
theorem C2_witness :
    ∃ m, meltedSteps scenarioTable = Except.ok m ∧
      m.rows.length =
        (id_explan_columns scenarioTable).2.length * scenarioTable.rows.length :=
  C2_melted_count scenarioTable (by decide) (by decide) (by decide)

/-! #### Cell-level lemmas for the flat reshaper -/

theorem pyEq_null_right (v : Val) : pyEq v Val.null = false := by
  cases v <;> rfl

theorem nth_map {α β : Type} (h : α → β) : ∀ (l : List α) (r : Nat),
    nth (l.map h) r = (nth l r).map h := by
  intro l
  induction l with
  | nil => intro r; simp [nth_nil]
  | cons a l ih =>
    intro r
    cases r with
    | zero => rfl
    | succ m => exact ih m

theorem setAt_cols (st : Table) (i : Nat) (c : String) (v : Val) :
    (setAt st i c v).cols = st.cols := by
  unfold setAt
  cases nth st.rows i <;> rfl

theorem setAt_rows_length (st : Table) (i : Nat) (c : String) (v : Val) :
    (setAt st i c v).rows.length = st.rows.length := by
  unfold setAt
  cases h : nth st.rows i with
  | none => rfl
  | some row => simp [length_setNth]

theorem setCellRow_length (cols : List String) (row : List Val) (c : String) (v : Val) :
    (setCellRow cols row c v).length = row.length := by
  unfold setCellRow
  cases lookupIdx c cols with
  | none => rfl
  | some i => exact length_setNth row i v

theorem nth_ne_of_lookup (cols : List String) (c c' : String) (j j' : Nat)
    (hj : lookupIdx c cols = some j) (hj' : lookupIdx c' cols = some j')
    (hne : c ≠ c') : j ≠ j' := by
  intro h
  apply hne
  have h1 := lookupIdx_some_nth cols c j hj
  have h2 := lookupIdx_some_nth cols c' j' hj'
  rw [h] at h1
  rw [h1] at h2
  injection h2

theorem getCell_setCellRow_ne (cols : List String) (row : List Val) (c c' : String) (v : Val)
    (hne : c' ≠ c) : getCell cols (setCellRow cols row c v) c' = getCell cols row c' := by
  unfold setCellRow getCell
  cases hc : lookupIdx c cols with
  | none => rfl
  | some j =>
    cases hc' : lookupIdx c' cols with
    | none => rfl
    | some j' =>
      show nth (setNth row j v) j' = nth row j'
      exact nth_setNth_ne row j j' v (nth_ne_of_lookup cols c c' j j' hc hc' (Ne.symm hne))

theorem cellAt_setAt_ne (st : Table) (i : Nat) (c : String) (v : Val) (r' : Nat) (c' : String)
    (h : r' ≠ i ∨ c' ≠ c) : cellAt (setAt st i c v) r' c' = cellAt st r' c' := by
  unfold setAt
  cases hrow : nth st.rows i with
  | none => rfl
  | some row =>
    unfold cellAt
    cases h with
    | inl hri =>
      rw [show nth (setNth st.rows i (setCellRow st.cols row c v)) r' = nth st.rows r' from
        nth_setNth_ne st.rows i r' _ (fun he => hri (he.symm))]
    | inr hcc =>
      by_cases hri : r' = i
      · subst hri
        rw [nth_setNth_self st.rows r' _ (nth_some_lt st.rows r' row hrow), hrow]
        exact getCell_setCellRow_ne st.cols row c c' v hcc
      · rw [nth_setNth_ne st.rows i r' _ (fun he => hri he.symm)]

theorem cellAt_setAt_self (st : Table) (i : Nat) (c : String) (v : Val)
    (row : List Val) (hrow : nth st.rows i = some row)
    (hlen : row.length = st.cols.length) (hmem : c ∈ st.cols) :
    cellAt (setAt st i c v) i c = some v := by
  obtain ⟨j, hj⟩ := lookupIdx_isSome_of_mem st.cols c hmem
  have hjlt : j < row.length := by
    rw [hlen]
    exact lookupIdx_lt st.cols c j hj
  unfold setAt
  rw [hrow]
  unfold cellAt
  rw [show nth (setNth st.rows i (setCellRow st.cols row c v)) i =
      some (setCellRow st.cols row c v) from
    nth_setNth_self st.rows i _ (nth_some_lt st.rows i row hrow)]
  unfold getCell setCellRow
  rw [hj]
  show nth (setNth row j v) j = some v
  exact nth_setNth_self row j v hjlt

theorem cellAt_addNullCol (st : Table) (c' : String) (hfresh : c' ∉ st.cols)
    (hwf : ∀ row ∈ st.rows, row.length = st.cols.length) (r : Nat) (c : String)
    (hne : c ≠ c') : cellAt (addNullCol st c') r c = cellAt st r c := by
  unfold addNullCol cellAt
  rw [nth_map]
  cases hrow : nth st.rows r with
  | none => rfl
  | some row =>
    show getCell (st.cols ++ [c']) (row ++ [Val.null]) c = getCell st.cols row c
    unfold getCell
    cases hc : lookupIdx c st.cols with
    | some j =>
      rw [lookupIdx_app_left st.cols [c'] c j hc]
      show nth (row ++ [Val.null]) j = nth row j
      apply nth_append_left
      rw [hwf row (nth_mem st.rows r row hrow)]
      exact lookupIdx_lt st.cols c j hc
    | none =>
      have hcm : c ∉ st.cols := (lookupIdx_none_iff st.cols c).mp hc
      have : lookupIdx c (st.cols ++ [c']) = none := by
        apply (lookupIdx_none_iff _ c).mpr
        intro hmem
        cases List.mem_append.mp hmem with
        | inl h => exact hcm h
        | inr h => exact hne (List.mem_singleton.mp h)
      rw [this]
      rfl

theorem getCell_isSome_of_mem (cols : List String) (row : List Val) (c : String)
    (hmem : c ∈ cols) (hlen : row.length = cols.length) : (getCell cols row c).isSome := by
  obtain ⟨i, hi⟩ := lookupIdx_isSome_of_mem cols c hmem
  obtain ⟨v, hv⟩ := nth_lt_length row i (by rw [hlen]; exact lookupIdx_lt cols c i hi)
  unfold getCell
  rw [hi]
  show (nth row i).isSome
  rw [hv]
  rfl

theorem getCell_none_of_not_mem (cols : List String) (row : List Val) (c : String)
    (hmem : c ∉ cols) : getCell cols row c = none := by
  unfold getCell
  rw [(lookupIdx_none_iff cols c).mpr hmem]
  rfl

theorem getCell_cons_ne (x : String) (v : Val) (cols : List String) (row : List Val)
    (c : String) (hne : x ≠ c) : getCell (x :: cols) (v :: row) c = getCell cols row c := by
  have h1 : lookupIdx c (x :: cols) = (lookupIdx c cols).map (· + 1) := by
    simp [lookupIdx, hne]
  unfold getCell
  rw [h1]
  cases lookupIdx c cols with
  | none => rfl
  | some i => rfl

theorem getCell_cons_eq (x : String) (v : Val) (cols : List String) (row : List Val) :
    getCell (x :: cols) (v :: row) x = some v := by
  have h1 : lookupIdx x (x :: cols) = some 0 := by
    simp [lookupIdx]
  unfold getCell
  rw [h1]
  rfl

theorem getCell_filter (ds : List String) (c : String) (hcds : c ∉ ds) :
    ∀ (cols : List String) (row : List Val), row.length = cols.length →
    getCell (cols.filter (fun x => !ds.contains x))
      (((cols.zip row).filter (fun p => !ds.contains p.1)).map Prod.snd) c =
    getCell cols row c := by
  intro cols
  induction cols with
  | nil =>
    intro row hlen
    have : row = [] := List.eq_nil_of_length_eq_zero (by simpa using hlen)
    subst this
    rfl
  | cons x cols ih =>
    intro row hlen
    cases row with
    | nil => simp at hlen
    | cons v row =>
      have hlen' : row.length = cols.length := by simpa using hlen
      by_cases hxds : x ∈ ds
      · have hxc : x ≠ c := fun h => hcds (h ▸ hxds)
        rw [List.filter_cons_of_neg (by simp [hxds]), List.zip_cons_cons,
          List.filter_cons_of_neg (by simp [hxds]), getCell_cons_ne x v cols row c hxc]
        exact ih row hlen'
      · rw [List.filter_cons_of_pos (by simp [hxds]), List.zip_cons_cons,
          List.filter_cons_of_pos (by simp [hxds])]
        by_cases hxc : x = c
        · subst hxc
          rw [List.map_cons, getCell_cons_eq, getCell_cons_eq]
        · rw [List.map_cons, getCell_cons_ne x v _ _ c hxc, getCell_cons_ne x v cols row c hxc]
          exact ih row hlen'

theorem cellAt_dropCols (st : Table) (hwf : ∀ row ∈ st.rows, row.length = st.cols.length)
    (E : List String) (c : String) (hcE : c ∉ E) (r : Nat) :
    cellAt (dropCols st E) r c = cellAt st r c := by
  unfold dropCols cellAt
  rw [nth_map]
  cases hrow : nth st.rows r with
  | none => rfl
  | some row =>
    exact getCell_filter E c hcE st.cols row (hwf row (nth_mem st.rows r row hrow))

/-! #### ES-suffix facts: the flat loop writes only to columns ending in
"_EXPLANATION_STRENGTH", and no canonical explanation column has that
suffix. -/

theorem headMatch_app_same : ∀ (a p s : List Char),
    headMatch (a ++ p) (a ++ s) = headMatch p s := by
  intro a
  induction a with
  | nil => intro p s; rfl
  | cons x a ih => intro p s; simp [headMatch, ih]

theorem headMatch_ne_head (p0 s0 : Char) (ps ss : List Char) (h : p0 ≠ s0) :
    headMatch (p0 :: ps) (s0 :: ss) = false := by
  simp [headMatch, h]

theorem EScol_append (s : String) : EScol (s ++ "_EXPLANATION_STRENGTH") = true := by
  unfold EScol endsL
  rw [toList_append]
  show headMatch esL.reverse ((s.toList ++ esL).reverse) = true
  rw [List.reverse_append]
  exact headMatch_self_app esL.reverse s.toList.reverse

theorem EScol_false_of_canonical (c : String) (ds : List Char) (hne : ds ≠ [])
    (hall : ds.all Char.isDigit = true)
    (hcase : c.toList = expPreL ++ (ds ++ fnSufL) ∨ c.toList = expPreL ++ (ds ++ stSufL)) :
    EScol c = false := by
  unfold EScol endsL
  cases hcase with
  | inl h =>
    rw [h, List.reverse_append, List.reverse_append]
    have h1 : esL.reverse = 'H' :: "TGNERTS_NOITANALPXE_".toList := by decide
    have h2 : fnSufL.reverse = 'E' :: "MAN_ERUTAEF_".toList := by decide
    rw [h1, h2, List.cons_append]
    exact headMatch_ne_head 'H' 'E' _ _ (by decide)
  | inr h =>
    rw [h, List.reverse_append, List.reverse_append]
    have h1 : esL.reverse = stSufL.reverse ++ ('N' :: "OITANALPXE_".toList) := by decide
    rw [h1, List.append_assoc, headMatch_app_same]
    cases hrev : ds.reverse with
    | nil =>
      exact absurd (List.reverse_eq_nil_iff.mp hrev) hne
    | cons d tail =>
      rw [List.cons_append]
      have hdmem : d ∈ ds := by
        rw [← List.mem_reverse, hrev]
        exact List.mem_cons_self d tail
      have hd : d.isDigit = true := List.all_eq_true.mp hall d hdmem
      have hnd : 'N' ≠ d := by
        intro he
        rw [← he] at hd
        exact absurd hd (by decide)
      exact headMatch_ne_head 'N' d _ _ hnd

theorem EScol_nameCol_false (g : String) (hne : g.toList ≠ [])
    (hall : g.toList.all Char.isDigit = true) : EScol (nameCol g) = false :=
  EScol_false_of_canonical (nameCol g) g.toList hne hall (Or.inl (toList_nameCol g))

theorem EScol_strCol_false (g : String) (hne : g.toList ≠ [])
    (hall : g.toList.all Char.isDigit = true) : EScol (strCol g) = false :=
  EScol_false_of_canonical (strCol g) g.toList hne hall (Or.inr (toList_strCol g))

theorem not_mem_expCols_of_EScol (t : Table) (hc : Convention t) (c : String)
    (hES : EScol c = true) : c ∉ (id_explan_columns t).1 := by
  intro hmem
  rw [id_explan_fst] at hmem
  have h1 := List.mem_filter.mp hmem
  have hok : colOK c = true := hc.2 c h1.1
  obtain ⟨rest, hrest⟩ := dropPre_some_of_headMatch expPreL c.toList h1.2
  have hcl : c.toList = expPreL ++ rest := dropPre_eq expPreL c.toList rest hrest
  have hcan : canonicalRest rest = true := by
    unfold colOK at hok
    rw [hrest] at hok
    exact hok
  obtain ⟨ds, hne, hall, hcase⟩ := canonicalRest_elim rest hcan
  have : EScol c = false := by
    apply EScol_false_of_canonical c ds hne hall
    cases hcase with
    | inl hf => exact Or.inl (by rw [hcl, hf])
    | inr hs => exact Or.inr (by rw [hcl, hs])
  rw [this] at hES
  cases hES

theorem cellAt_none_of_not_mem (st : Table) (r : Nat) (c : String) (hmem : c ∉ st.cols) :
    cellAt st r c = none := by
  unfold cellAt
  cases nth st.rows r with
  | none => rfl
  | some row => exact getCell_none_of_not_mem st.cols row c hmem

theorem mem_setNth {α : Type} (b : α) : ∀ (l : List α) (i : Nat) (a : α),
    a ∈ setNth l i b → a = b ∨ a ∈ l := by
  intro l
  induction l with
  | nil => intro i a h; cases h
  | cons x l ih =>
    intro i a h
    cases i with
    | zero =>
      cases List.mem_cons.mp h with
      | inl h1 => exact Or.inl h1
      | inr h1 => exact Or.inr (List.mem_cons_of_mem x h1)
    | succ n =>
      cases List.mem_cons.mp h with
      | inl h1 => exact Or.inr (h1 ▸ List.mem_cons_self x l)
      | inr h1 =>
        cases ih n a h1 with
        | inl h2 => exact Or.inl h2
        | inr h2 => exact Or.inr (List.mem_cons_of_mem x h2)

/-- The loop invariant of return_explanations_flat relating the original
frame t to the current (mutated) state st: same row count, aligned rows,
distinct columns, the original columns a prefix of the current ones, and
every cell of an original column not ending in "_EXPLANATION_STRENGTH"
unchanged. -/
structure FlatInv (t st : Table) : Prop where
  rlen : st.rows.length = t.rows.length
  wf : ∀ row ∈ st.rows, row.length = st.cols.length
  nd : st.cols.Nodup
  grow : ∃ ex, st.cols = t.cols ++ ex
  keep : ∀ r c, c ∈ t.cols → EScol c = false → cellAt st r c = cellAt t r c

theorem FlatInv.base (t : Table) (hwf : t.WF) : FlatInv t t :=
  ⟨rfl, hwf.2, hwf.1, ⟨[], (List.append_nil t.cols).symm⟩, fun _ _ _ _ => rfl⟩

theorem setAt_wf (st : Table) (i : Nat) (c : String) (v : Val)
    (hwf : ∀ row ∈ st.rows, row.length = st.cols.length) :
    ∀ row ∈ (setAt st i c v).rows, row.length = (setAt st i c v).cols.length := by
  unfold setAt
  cases hr : nth st.rows i with
  | none => exact hwf
  | some row0 =>
    intro row hrow
    show row.length = st.cols.length
    cases mem_setNth _ st.rows i row hrow with
    | inl h =>
      rw [h, setCellRow_length]
      exact hwf row0 (nth_mem _ _ _ hr)
    | inr h => exact hwf row h

theorem addNullCol_cols (st : Table) (c : String) :
    (addNullCol st c).cols = st.cols ++ [c] := rfl

theorem addNullCol_rows_length (st : Table) (c : String) :
    (addNullCol st c).rows.length = st.rows.length := by
  unfold addNullCol
  simp

theorem addNullCol_wf (st : Table) (c : String)
    (hwf : ∀ row ∈ st.rows, row.length = st.cols.length) :
    ∀ row ∈ (addNullCol st c).rows, row.length = (addNullCol st c).cols.length := by
  intro row hrow
  unfold addNullCol at hrow
  obtain ⟨row0, hrow0, hr⟩ := List.mem_map.mp hrow
  rw [← hr, addNullCol_cols]
  simp [hwf row0 hrow0]

theorem addNullCol_nd (st : Table) (c : String) (hnd : st.cols.Nodup)
    (hfresh : c ∉ st.cols) : (addNullCol st c).cols.Nodup := by
  rw [addNullCol_cols, List.nodup_append]
  refine ⟨hnd, List.nodup_singleton c, ?_⟩
  intro a ha hb
  rw [List.mem_singleton] at hb
  exact hfresh (hb ▸ ha)

theorem nth_addNullCol (st : Table) (c : String) (i : Nat) (row0 : List Val)
    (hr : nth st.rows i = some row0) :
    nth (addNullCol st c).rows i = some (row0 ++ [Val.null]) := by
  unfold addNullCol
  show nth (st.rows.map (fun row => row ++ [Val.null])) i = _
  rw [nth_map, hr]
  rfl

theorem slotStep_cases (t : Table) (i : Nat) (sc : List String) (sr : List Val) (st : Table)
    (g : String) (fname s : Val)
    (hn : getCell sc sr (nameCol g) = some fname)
    (hs : getCell sc sr (strCol g) = some s)
    (hinv : FlatInv t st) :
    ∃ st', slotStep i sc sr st g = Except.ok st' ∧ FlatInv t st' ∧
      (st'.cols = st.cols ∨
        st'.cols = st.cols ++ [pyStr fname ++ "_EXPLANATION_STRENGTH"]) ∧
      (∀ r' c', c' ∈ st.cols → (r' ≠ i ∨ c' ≠ pyStr fname ++ "_EXPLANATION_STRENGTH") →
        cellAt st' r' c' = cellAt st r' c') ∧
      (∀ r' c', c' ∉ st.cols → c' ≠ pyStr fname ++ "_EXPLANATION_STRENGTH" →
        cellAt st' r' c' = cellAt st r' c') ∧
      (i < st.rows.length →
        cellAt st' i (pyStr fname ++ "_EXPLANATION_STRENGTH") = some s) ∧
      (pyStr fname ++ "_EXPLANATION_STRENGTH") ∈ st'.cols := by
  have hES : EScol (pyStr fname ++ "_EXPLANATION_STRENGTH") = true := EScol_append _
  have hshow : slotStep i sc sr st g =
      (if st.cols.contains (pyStr fname ++ "_EXPLANATION_STRENGTH") then
        match getCell sc sr (strCol g) with
        | none => Except.error (PyError.keyError (strCol g))
        | some s => Except.ok (setAt st i (pyStr fname ++ "_EXPLANATION_STRENGTH") s)
      else if pyEq fname Val.null then Except.ok st
      else
        match getCell sc sr (strCol g) with
        | none => Except.error (PyError.keyError (strCol g))
        | some s => Except.ok (setAt (addNullCol st (pyStr fname ++ "_EXPLANATION_STRENGTH"))
            i (pyStr fname ++ "_EXPLANATION_STRENGTH") s)) := by
    unfold slotStep
    rw [hn]
  by_cases hcont : st.cols.contains (pyStr fname ++ "_EXPLANATION_STRENGTH") = true
  · have hmem : (pyStr fname ++ "_EXPLANATION_STRENGTH") ∈ st.cols := by simpa using hcont
    have hstep : slotStep i sc sr st g =
        Except.ok (setAt st i (pyStr fname ++ "_EXPLANATION_STRENGTH") s) := by
      rw [hshow, if_pos hcont, hs]
    refine ⟨_, hstep, ?_, Or.inl (setAt_cols st i _ s), ?_, ?_, ?_, ?_⟩
    · refine ⟨?_, ?_, ?_, ?_, ?_⟩
      · rw [setAt_rows_length]
        exact hinv.rlen
      · exact setAt_wf st i _ s hinv.wf
      · rw [setAt_cols]
        exact hinv.nd
      · rw [setAt_cols]
        exact hinv.grow
      · intro r' c hcm hESf
        have hne : c ≠ pyStr fname ++ "_EXPLANATION_STRENGTH" := by
          intro he
          rw [he, hES] at hESf
          cases hESf
        rw [cellAt_setAt_ne st i _ s r' c (Or.inr hne)]
        exact hinv.keep r' c hcm hESf
    · intro r' c' _ hd
      exact cellAt_setAt_ne st i _ s r' c' hd
    · intro r' c' hcm' hne
      rw [cellAt_setAt_ne st i _ s r' c' (Or.inr hne)]
    · intro hi
      obtain ⟨row0, hrow0⟩ := nth_lt_length st.rows i hi
      exact cellAt_setAt_self st i _ s row0 hrow0
        (hinv.wf row0 (nth_mem _ _ _ hrow0)) hmem
    · rw [setAt_cols]
      exact hmem
  · have hfresh : (pyStr fname ++ "_EXPLANATION_STRENGTH") ∉ st.cols := by
      intro hmem
      exact hcont (by simpa using hmem)
    have hcontf : st.cols.contains (pyStr fname ++ "_EXPLANATION_STRENGTH") = false := by
      simpa using hfresh
    have hstep : slotStep i sc sr st g =
        Except.ok (setAt (addNullCol st (pyStr fname ++ "_EXPLANATION_STRENGTH"))
          i (pyStr fname ++ "_EXPLANATION_STRENGTH") s) := by
      rw [hshow, if_neg hcont, pyEq_null_right, if_neg (by simp), hs]
    have hAcols : (addNullCol st (pyStr fname ++ "_EXPLANATION_STRENGTH")).cols =
        st.cols ++ [pyStr fname ++ "_EXPLANATION_STRENGTH"] := rfl
    have hAmem : (pyStr fname ++ "_EXPLANATION_STRENGTH") ∈
        (addNullCol st (pyStr fname ++ "_EXPLANATION_STRENGTH")).cols := by
      rw [hAcols]
      exact List.mem_append_right _ (List.mem_singleton.mpr rfl)
    refine ⟨_, hstep, ?_, ?_, ?_, ?_, ?_, ?_⟩
    · refine ⟨?_, ?_, ?_, ?_, ?_⟩
      · rw [setAt_rows_length, addNullCol_rows_length]
        exact hinv.rlen
      · exact setAt_wf _ i _ s (addNullCol_wf st _ hinv.wf)
      · rw [setAt_cols, hAcols]
        exact addNullCol_nd st _ hinv.nd hfresh
      · rw [setAt_cols, hAcols]
        obtain ⟨ex, hex⟩ := hinv.grow
        exact ⟨ex ++ [pyStr fname ++ "_EXPLANATION_STRENGTH"], by
          rw [hex, List.append_assoc]⟩
      · intro r' c hcm hESf
        have hcst : c ∈ st.cols := by
          obtain ⟨ex, hex⟩ := hinv.grow
          rw [hex]
          exact List.mem_append_left ex hcm
        have hne : c ≠ pyStr fname ++ "_EXPLANATION_STRENGTH" := fun he => hfresh (he ▸ hcst)
        rw [cellAt_setAt_ne (addNullCol st (pyStr fname ++ "_EXPLANATION_STRENGTH")) i
            (pyStr fname ++ "_EXPLANATION_STRENGTH") s r' c (Or.inr hne),
          cellAt_addNullCol st (pyStr fname ++ "_EXPLANATION_STRENGTH") hfresh hinv.wf r' c hne]
        exact hinv.keep r' c hcm hESf
    · exact Or.inr (by rw [setAt_cols, hAcols])
    · intro r' c' hcm' _
      have hne : c' ≠ pyStr fname ++ "_EXPLANATION_STRENGTH" := fun he => hfresh (he ▸ hcm')
      rw [cellAt_setAt_ne (addNullCol st (pyStr fname ++ "_EXPLANATION_STRENGTH")) i
          (pyStr fname ++ "_EXPLANATION_STRENGTH") s r' c' (Or.inr hne),
        cellAt_addNullCol st (pyStr fname ++ "_EXPLANATION_STRENGTH") hfresh hinv.wf r' c' hne]
    · intro r' c' _ hne
      rw [cellAt_setAt_ne (addNullCol st (pyStr fname ++ "_EXPLANATION_STRENGTH")) i
          (pyStr fname ++ "_EXPLANATION_STRENGTH") s r' c' (Or.inr hne),
        cellAt_addNullCol st (pyStr fname ++ "_EXPLANATION_STRENGTH") hfresh hinv.wf r' c' hne]
    · intro hi
      obtain ⟨row0, hrow0⟩ := nth_lt_length st.rows i hi
      have hnthA := nth_addNullCol st (pyStr fname ++ "_EXPLANATION_STRENGTH") i row0 hrow0
      apply cellAt_setAt_self (addNullCol st (pyStr fname ++ "_EXPLANATION_STRENGTH")) i
        (pyStr fname ++ "_EXPLANATION_STRENGTH") s (row0 ++ [Val.null]) hnthA
      · rw [hAcols]
        simp [hinv.wf row0 (nth_mem _ _ _ hrow0)]
      · exact hAmem
    · rw [setAt_cols]
      exact hAmem

theorem str_append_right_cancel (s1 s2 suf : String) (h : s1 ++ suf = s2 ++ suf) :
    s1 = s2 := by
  have h1 : s1.toList ++ suf.toList = s2.toList ++ suf.toList := by
    rw [← toList_append, ← toList_append, h]
  apply String.ext
  exact (List.append_inj' h1 rfl).1

theorem rowSlots_append (i : Nat) (sc : List String) (sr : List Val) :
    ∀ (gs1 gs2 : List String) (st : Table),
    rowSlots i sc sr (gs1 ++ gs2) st =
      (match rowSlots i sc sr gs1 st with
      | Except.ok st' => rowSlots i sc sr gs2 st'
      | Except.error e => Except.error e) := by
  intro gs1
  induction gs1 with
  | nil => intro gs2 st; rfl
  | cons g gs ih =>
    intro gs2 st
    have hstep : ∀ (l : List String), rowSlots i sc sr (g :: l) st =
        (match slotStep i sc sr st g with
        | Except.ok st' => rowSlots i sc sr l st'
        | Except.error e => Except.error e) := fun l => rfl
    rw [show (g :: gs) ++ gs2 = g :: (gs ++ gs2) from rfl, hstep (gs ++ gs2), hstep gs]
    cases slotStep i sc sr st g with
    | ok st' => exact ih gs2 st'
    | error e => rfl

/-- Every slot whose name and strength are present in the snapshot
processes without error, and the invariant survives; columns only grow. -/
theorem rowSlots_inv (t : Table) (i : Nat) (sc : List String) (sr : List Val) :
    ∀ (gs : List String) (st : Table), FlatInv t st →
    (∀ g' ∈ gs, (∃ fn, getCell sc sr (nameCol g') = some fn) ∧
      ∃ sv, getCell sc sr (strCol g') = some sv) →
    ∃ st', rowSlots i sc sr gs st = Except.ok st' ∧ FlatInv t st' ∧
      ∀ c ∈ st.cols, c ∈ st'.cols := by
  intro gs
  induction gs with
  | nil =>
    intro st hinv _
    exact ⟨st, rfl, hinv, fun c hc => hc⟩
  | cons g gs ih =>
    intro st hinv hpres
    obtain ⟨⟨fn, hfn⟩, sv, hsv⟩ := hpres g (List.mem_cons_self g gs)
    obtain ⟨st1, hstep, hinv1, hcols1, _, _, _, _⟩ :=
      slotStep_cases t i sc sr st g fn sv hfn hsv hinv
    obtain ⟨st', hrest, hinv', hmono⟩ :=
      ih st1 hinv1 (fun g' hg' => hpres g' (List.mem_cons_of_mem g hg'))
    refine ⟨st', ?_, hinv', ?_⟩
    · show (match slotStep i sc sr st g with
        | Except.ok st2 => rowSlots i sc sr gs st2
        | Except.error e => Except.error e) = Except.ok st'
      rw [hstep]
      exact hrest
    · intro c hc
      apply hmono
      cases hcols1 with
      | inl h => rw [h]; exact hc
      | inr h => rw [h]; exact List.mem_append_left _ hc

/-- Slots whose feature name does not render to f leave every cell of the
f_EXPLANATION_STRENGTH column unchanged. -/
theorem rowSlots_nomatch (t : Table) (i : Nat) (sc : List String) (sr : List Val)
    (f : String) :
    ∀ (gs : List String) (st : Table), FlatInv t st →
    (∀ g' ∈ gs, (∃ fn, getCell sc sr (nameCol g') = some fn) ∧
      ∃ sv, getCell sc sr (strCol g') = some sv) →
    (∀ g' ∈ gs, ∀ v, getCell sc sr (nameCol g') = some v → pyStr v ≠ f) →
    ∃ st', rowSlots i sc sr gs st = Except.ok st' ∧ FlatInv t st' ∧
      (∀ c ∈ st.cols, c ∈ st'.cols) ∧
      ∀ r', cellAt st' r' (f ++ "_EXPLANATION_STRENGTH") =
        cellAt st r' (f ++ "_EXPLANATION_STRENGTH") := by
  intro gs
  induction gs with
  | nil =>
    intro st hinv _ _
    exact ⟨st, rfl, hinv, fun c hc => hc, fun _ => rfl⟩
  | cons g gs ih =>
    intro st hinv hpres hnm
    obtain ⟨⟨fn, hfn⟩, sv, hsv⟩ := hpres g (List.mem_cons_self g gs)
    obtain ⟨st1, hstep, hinv1, hcols1, hFin, hFnc, _, _⟩ :=
      slotStep_cases t i sc sr st g fn sv hfn hsv hinv
    have hnef : pyStr fn ≠ f := hnm g (List.mem_cons_self g gs) fn hfn
    have hnecol : f ++ "_EXPLANATION_STRENGTH" ≠ pyStr fn ++ "_EXPLANATION_STRENGTH" := by
      intro he
      exact hnef (str_append_right_cancel (pyStr fn) f _ (he.symm))
    obtain ⟨st', hrest, hinv', hmono, hcell⟩ :=
      ih st1 hinv1 (fun g' hg' => hpres g' (List.mem_cons_of_mem g hg'))
        (fun g' hg' => hnm g' (List.mem_cons_of_mem g hg'))
    refine ⟨st', ?_, hinv', ?_, ?_⟩
    · show (match slotStep i sc sr st g with
        | Except.ok st2 => rowSlots i sc sr gs st2
        | Except.error e => Except.error e) = Except.ok st'
      rw [hstep]
      exact hrest
    · intro c hc
      apply hmono
      cases hcols1 with
      | inl h => rw [h]; exact hc
      | inr h => rw [h]; exact List.mem_append_left _ hc
    · intro r'
      rw [hcell r']
      by_cases hmem : (f ++ "_EXPLANATION_STRENGTH") ∈ st.cols
      · exact hFin r' _ hmem (Or.inr hnecol)
      · exact hFnc r' _ hmem hnecol

/-- Processing a row other than r leaves row r's cell of an
already-present column unchanged. -/
theorem rowSlots_other (t : Table) (i : Nat) (sc : List String) (sr : List Val)
    (r : Nat) (hir : i ≠ r) (fcol : String) :
    ∀ (gs : List String) (st : Table), FlatInv t st →
    (∀ g' ∈ gs, (∃ fn, getCell sc sr (nameCol g') = some fn) ∧
      ∃ sv, getCell sc sr (strCol g') = some sv) →
    fcol ∈ st.cols →
    ∃ st', rowSlots i sc sr gs st = Except.ok st' ∧ FlatInv t st' ∧
      cellAt st' r fcol = cellAt st r fcol ∧ fcol ∈ st'.cols := by
  intro gs
  induction gs with
  | nil =>
    intro st hinv _ hmem
    exact ⟨st, rfl, hinv, rfl, hmem⟩
  | cons g gs ih =>
    intro st hinv hpres hmem
    obtain ⟨⟨fn, hfn⟩, sv, hsv⟩ := hpres g (List.mem_cons_self g gs)
    obtain ⟨st1, hstep, hinv1, hcols1, hFin, _, _, _⟩ :=
      slotStep_cases t i sc sr st g fn sv hfn hsv hinv
    have hmem1 : fcol ∈ st1.cols := by
      cases hcols1 with
      | inl h => rw [h]; exact hmem
      | inr h => rw [h]; exact List.mem_append_left _ hmem
    obtain ⟨st', hrest, hinv', hcell, hmem'⟩ :=
      ih st1 hinv1 (fun g' hg' => hpres g' (List.mem_cons_of_mem g hg')) hmem1
    refine ⟨st', ?_, hinv', ?_, hmem'⟩
    · show (match slotStep i sc sr st g with
        | Except.ok st2 => rowSlots i sc sr gs st2
        | Except.error e => Except.error e) = Except.ok st'
      rw [hstep]
      exact hrest
    · rw [hcell]
      exact hFin r fcol hmem (Or.inl (fun he => hir he.symm))

theorem rowLoop_append (pops : List String) :
    ∀ (is1 is2 : List Nat) (st : Table),
    rowLoop pops (is1 ++ is2) st =
      (match rowLoop pops is1 st with
      | Except.ok st' => rowLoop pops is2 st'
      | Except.error e => Except.error e) := by
  intro is1
  induction is1 with
  | nil => intro is2 st; rfl
  | cons i is ih =>
    intro is2 st
    have hstep : ∀ (l : List Nat), rowLoop pops (i :: l) st =
        (match rowStep pops st i with
        | Except.ok st' => rowLoop pops l st'
        | Except.error e => Except.error e) := fun l => rfl
    rw [show (i :: is) ++ is2 = i :: (is ++ is2) from rfl, hstep (is ++ is2), hstep is]
    cases rowStep pops st i with
    | ok st' => exact ih is2 st'
    | error e => rfl

theorem rowStep_none (pops : List String) (st : Table) (i : Nat)
    (h : nth st.rows i = none) : rowStep pops st i = Except.ok st := by
  unfold rowStep
  rw [h]

theorem rowStep_some (pops : List String) (st : Table) (i : Nat) (sr : List Val)
    (h : nth st.rows i = some sr) : rowStep pops st i = rowSlots i st.cols sr pops st := by
  unfold rowStep
  rw [h]

theorem rowLoop_cons (pops : List String) (i : Nat) (is : List Nat) (st : Table) :
    rowLoop pops (i :: is) st =
      (match rowStep pops st i with
      | Except.ok st' => rowLoop pops is st'
      | Except.error e => Except.error e) := rfl

/-- Presence of every populated slot's columns in the snapshot of any
invariant state. -/
theorem snapshot_present (t : Table) (pops : List String) (st : Table) (hinv : FlatInv t st)
    (hcols : ∀ g' ∈ pops, nameCol g' ∈ t.cols ∧ strCol g' ∈ t.cols)
    (sr : List Val) (hsr : sr ∈ st.rows) :
    ∀ g' ∈ pops, (∃ fn, getCell st.cols sr (nameCol g') = some fn) ∧
      ∃ sv, getCell st.cols sr (strCol g') = some sv := by
  intro g' hg'
  obtain ⟨ex, hex⟩ := hinv.grow
  have hlen : sr.length = st.cols.length := hinv.wf sr hsr
  have hn : nameCol g' ∈ st.cols := by
    rw [hex]
    exact List.mem_append_left ex (hcols g' hg').1
  have hst : strCol g' ∈ st.cols := by
    rw [hex]
    exact List.mem_append_left ex (hcols g' hg').2
  constructor
  · obtain ⟨v, hv⟩ := Option.isSome_iff_exists.mp (getCell_isSome_of_mem _ sr _ hn hlen)
    exact ⟨v, hv⟩
  · obtain ⟨v, hv⟩ := Option.isSome_iff_exists.mp (getCell_isSome_of_mem _ sr _ hst hlen)
    exact ⟨v, hv⟩

theorem rowLoop_inv (t : Table) (pops : List String)
    (hcols : ∀ g' ∈ pops, nameCol g' ∈ t.cols ∧ strCol g' ∈ t.cols) :
    ∀ (is : List Nat) (st : Table), FlatInv t st →
    ∃ fin, rowLoop pops is st = Except.ok fin ∧ FlatInv t fin := by
  intro is
  induction is with
  | nil =>
    intro st hinv
    exact ⟨st, rfl, hinv⟩
  | cons i is ih =>
    intro st hinv
    rw [rowLoop_cons]
    cases hsr : nth st.rows i with
    | none =>
      rw [rowStep_none pops st i hsr]
      exact ih st hinv
    | some sr =>
      obtain ⟨st1, hslots, hinv1, _⟩ := rowSlots_inv t i st.cols sr pops st hinv
        (snapshot_present t pops st hinv hcols sr (nth_mem _ _ _ hsr))
      rw [rowStep_some pops st i sr hsr, hslots]
      exact ih st1 hinv1

theorem rowLoop_preserve (t : Table) (pops : List String) (r : Nat) (fcol : String)
    (hcols : ∀ g' ∈ pops, nameCol g' ∈ t.cols ∧ strCol g' ∈ t.cols) :
    ∀ (is : List Nat) (st : Table), FlatInv t st → (∀ i ∈ is, i ≠ r) → fcol ∈ st.cols →
    ∃ fin, rowLoop pops is st = Except.ok fin ∧ FlatInv t fin ∧
      cellAt fin r fcol = cellAt st r fcol ∧ fcol ∈ fin.cols := by
  intro is
  induction is with
  | nil =>
    intro st hinv _ hmem
    exact ⟨st, rfl, hinv, rfl, hmem⟩
  | cons i is ih =>
    intro st hinv hir hmem
    rw [rowLoop_cons]
    cases hsr : nth st.rows i with
    | none =>
      rw [rowStep_none pops st i hsr]
      exact ih st hinv (fun j hj => hir j (List.mem_cons_of_mem i hj)) hmem
    | some sr =>
      obtain ⟨st1, hslots, hinv1, hcell1, hmem1⟩ :=
        rowSlots_other t i st.cols sr r (hir i (List.mem_cons_self i is)) fcol pops st hinv
          (snapshot_present t pops st hinv hcols sr (nth_mem _ _ _ hsr)) hmem
      rw [rowStep_some pops st i sr hsr, hslots]
      obtain ⟨fin, hloop, hinv', hcell', hmem'⟩ :=
        ih st1 hinv1 (fun j hj => hir j (List.mem_cons_of_mem i hj)) hmem1
      refine ⟨fin, hloop, hinv', ?_, hmem'⟩
      rw [hcell', hcell1]

/-- If some populated slot's strength column is missing from the snapshot,
the inner loop fails with a KeyError naming that column at the first such
slot (earlier slots with both columns present succeed). -/
theorem rowSlots_error (t : Table) (i : Nat) (sc : List String) (sr : List Val) (g : String)
    (gs2 : List String) (fn : Val)
    (hfn : getCell sc sr (nameCol g) = some fn)
    (hmiss : getCell sc sr (strCol g) = none) :
    ∀ (gs1 : List String) (st : Table), FlatInv t st →
    (∀ g' ∈ gs1, (∃ f1, getCell sc sr (nameCol g') = some f1) ∧
      ∃ sv, getCell sc sr (strCol g') = some sv) →
    rowSlots i sc sr (gs1 ++ g :: gs2) st = Except.error (PyError.keyError (strCol g)) := by
  intro gs1
  induction gs1 with
  | nil =>
    intro st _ _
    have hstep : slotStep i sc sr st g = Except.error (PyError.keyError (strCol g)) := by
      have hshow : slotStep i sc sr st g =
          (if st.cols.contains (pyStr fn ++ "_EXPLANATION_STRENGTH") then
            match getCell sc sr (strCol g) with
            | none => Except.error (PyError.keyError (strCol g))
            | some s => Except.ok (setAt st i (pyStr fn ++ "_EXPLANATION_STRENGTH") s)
          else if pyEq fn Val.null then Except.ok st
          else
            match getCell sc sr (strCol g) with
            | none => Except.error (PyError.keyError (strCol g))
            | some s => Except.ok (setAt (addNullCol st (pyStr fn ++ "_EXPLANATION_STRENGTH"))
                i (pyStr fn ++ "_EXPLANATION_STRENGTH") s)) := by
        unfold slotStep
        rw [hfn]
      by_cases hcont : st.cols.contains (pyStr fn ++ "_EXPLANATION_STRENGTH") = true
      · rw [hshow, if_pos hcont, hmiss]
      · rw [hshow, if_neg hcont, pyEq_null_right, if_neg (by simp), hmiss]
    show (match slotStep i sc sr st g with
      | Except.ok st' => rowSlots i sc sr gs2 st'
      | Except.error e => Except.error e) = _
    rw [hstep]
  | cons g1 gs1 ih =>
    intro st hinv hpres
    obtain ⟨⟨f1, hf1⟩, sv, hsv⟩ := hpres g1 (List.mem_cons_self g1 gs1)
    obtain ⟨st1, hstep1, hinv1, -, -, -, -, -⟩ :=
      slotStep_cases t i sc sr st g1 f1 sv hf1 hsv hinv
    show (match slotStep i sc sr st g1 with
      | Except.ok st' => rowSlots i sc sr (gs1 ++ g :: gs2) st'
      | Except.error e => Except.error e) = _
    rw [hstep1]
    exact ih st1 hinv1 (fun g' hg' => hpres g' (List.mem_cons_of_mem g1 hg'))

/-- C5 amended: when a populated slot's strength column is missing, the
flat reshaper raises the pandas KeyError naming the missing
EXPLANATION_g_STRENGTH column (at the first such slot) — not an
InputFormatError, which does not exist anywhere in the source. -/
theorem C5_missing_strength_keyerror (t : Table) (hc : Convention t)
    (hrows : t.rows ≠ []) (g : String) (gs1 gs2 : List String)
    (hsplit : (id_explan_columns t).2 = gs1 ++ g :: gs2)
    (hpre : ∀ g' ∈ gs1, strCol g' ∈ t.cols)
    (hmiss : strCol g ∉ t.cols) :
    return_explanations_flat t = Except.error (PyError.keyError (strCol g)) := by
  obtain ⟨row0, rest, hrows0⟩ : ∃ row0 rest, t.rows = row0 :: rest := by
    cases ht : t.rows with
    | nil => exact absurd ht hrows
    | cons a l => exact ⟨a, l, rfl⟩
  have hrow0 : nth t.rows 0 = some row0 := by rw [hrows0]; rfl
  have hlen0 : row0.length = t.cols.length := hc.1.2 row0 (nth_mem _ _ _ hrow0)
  have hpres1 : ∀ g' ∈ gs1, (∃ f1, getCell t.cols row0 (nameCol g') = some f1) ∧
      ∃ sv, getCell t.cols row0 (strCol g') = some sv := by
    intro g' hg'
    have hgp : g' ∈ (id_explan_columns t).2 := by
      rw [hsplit]
      exact List.mem_append_left _ hg'
    have hn : nameCol g' ∈ t.cols := ((pops_mem_iff t hc g').mp hgp).2.2.1
    constructor
    · obtain ⟨v, hv⟩ := Option.isSome_iff_exists.mp
        (getCell_isSome_of_mem t.cols row0 (nameCol g') hn hlen0)
      exact ⟨v, hv⟩
    · obtain ⟨v, hv⟩ := Option.isSome_iff_exists.mp
        (getCell_isSome_of_mem t.cols row0 (strCol g') (hpre g' hg') hlen0)
      exact ⟨v, hv⟩
  have hgp : g ∈ (id_explan_columns t).2 := by
    rw [hsplit]
    exact List.mem_append_right gs1 (List.mem_cons_self g gs2)
  obtain ⟨fn, hfng⟩ := Option.isSome_iff_exists.mp
    (getCell_isSome_of_mem t.cols row0 (nameCol g)
      ((pops_mem_iff t hc g).mp hgp).2.2.1 hlen0)
  have hmissg : getCell t.cols row0 (strCol g) = none :=
    getCell_none_of_not_mem t.cols row0 (strCol g) hmiss
  have hN : t.rows.length = rest.length + 1 := by
    rw [hrows0]
    rfl
  have hrange : List.range t.rows.length = 0 :: List.range' 1 rest.length := by
    rw [hN, List.range_eq_range', List.range'_succ]
  have herr := rowSlots_error t 0 t.cols row0 g gs2 fn hfng hmissg gs1 t
    (FlatInv.base t hc.1) hpres1
  rw [← hsplit] at herr
  have hloop : flatLoop t = Except.error (PyError.keyError (strCol g)) := by
    unfold flatLoop
    rw [hrange, rowLoop_cons, rowStep_some (id_explan_columns t).2 t 0 row0 hrow0]
    rw [show rowSlots 0 t.cols row0 (id_explan_columns t).2 t =
      Except.error (PyError.keyError (strCol g)) from herr]
  unfold return_explanations_flat
  rw [hloop]

/-- Witness for the C5 amended theorem: the one-column table with a
populated slot 1 and no strength column fails with the KeyError naming
EXPLANATION_1_STRENGTH. -/
theorem C5_witness :
    return_explanations_flat missingStrengthTable =
      Except.error (PyError.keyError (strCol "1")) :=
  C5_missing_strength_keyerror missingStrengthTable (by decide) (by decide) "1" [] []
    (by decide) (by decide) (by decide)

theorem range_split (N r : Nat) (h : r < N) :
    List.range N = List.range' 0 r ++ r :: List.range' (r + 1) (N - r - 1) := by
  rw [List.range_eq_range']
  have h1 := List.range'_append_1 0 r (N - r)
  have h2 : 0 + r = r := by omega
  have h3 : N - r + r = N := by omega
  rw [h2, h3] at h1
  rw [← h1]
  congr 1
  have h4 : N - r = (N - r - 1) + 1 := by omega
  rw [h4, List.range'_succ, Nat.add_sub_cancel]

/-- C4: for every row r and populated slot g whose feature name is the
non-null string f, provided no later populated slot of that row renders to
the same feature name (the source's last-slot-wins overwrite policy), the
flat output's f_EXPLANATION_STRENGTH cell at row r equals that slot's
strength value from the input. -/
theorem C4_flat_completeness (t : Table) (hc : Convention t)
    (hstr : ∀ g ∈ (id_explan_columns t).2, strCol g ∈ t.cols)
    (r : Nat) (g f : String) (P1 P2 : List String)
    (hsplit : (id_explan_columns t).2 = P1 ++ g :: P2)
    (hname : cellAt t r (nameCol g) = some (Val.str f))
    (hlater : ∀ g' ∈ P2, ∀ v, cellAt t r (nameCol g') = some v → pyStr v ≠ f) :
    ∃ out, return_explanations_flat t = Except.ok out ∧
      cellAt out r (f ++ "_EXPLANATION_STRENGTH") = cellAt t r (strCol g) := by
  have hr : r < t.rows.length := by
    cases hn0 : nth t.rows r with
    | some row => exact nth_some_lt t.rows r row hn0
    | none =>
      unfold cellAt at hname
      rw [hn0] at hname
      cases hname
  have hcols : ∀ g' ∈ (id_explan_columns t).2, nameCol g' ∈ t.cols ∧ strCol g' ∈ t.cols :=
    fun g' hg' => ⟨((pops_mem_iff t hc g').mp hg').2.2.1, hstr g' hg'⟩
  have hgpops : g ∈ (id_explan_columns t).2 := by
    rw [hsplit]
    exact List.mem_append_right P1 (List.mem_cons_self g P2)
  have hgprops := (pops_mem_iff t hc g).mp hgpops
  obtain ⟨row_r, hrowr⟩ := nth_lt_length t.rows r hr
  have hlenr : row_r.length = t.cols.length := hc.1.2 row_r (nth_mem _ _ _ hrowr)
  obtain ⟨s0, hs0⟩ : ∃ s0, cellAt t r (strCol g) = some s0 := by
    obtain ⟨v, hv⟩ := Option.isSome_iff_exists.mp
      (getCell_isSome_of_mem t.cols row_r (strCol g) (hstr g hgpops) hlenr)
    refine ⟨v, ?_⟩
    unfold cellAt
    rw [hrowr]
    exact hv
  obtain ⟨st1, hph1, hinv1⟩ := rowLoop_inv t (id_explan_columns t).2 hcols
    (List.range' 0 r) t (FlatInv.base t hc.1)
  obtain ⟨sr, hsr⟩ := nth_lt_length st1.rows r (by rw [hinv1.rlen]; exact hr)
  have hpres := snapshot_present t (id_explan_columns t).2 st1 hinv1 hcols sr
    (nth_mem _ _ _ hsr)
  have hsnap : ∀ c, getCell st1.cols sr c = cellAt st1 r c := by
    intro c
    unfold cellAt
    rw [hsr]
  have hval : ∀ g' ∈ (id_explan_columns t).2, getCell st1.cols sr (nameCol g') =
      cellAt t r (nameCol g') := by
    intro g' hg'
    rw [hsnap]
    have hp := (pops_mem_iff t hc g').mp hg'
    exact hinv1.keep r (nameCol g') hp.2.2.1 (EScol_nameCol_false g' hp.1 hp.2.1)
  have hvalstr : getCell st1.cols sr (strCol g) = cellAt t r (strCol g) := by
    rw [hsnap]
    exact hinv1.keep r (strCol g) (hstr g hgpops)
      (EScol_strCol_false g hgprops.1 hgprops.2.1)
  have hpresP1 : ∀ g' ∈ P1, (∃ f1, getCell st1.cols sr (nameCol g') = some f1) ∧
      ∃ sv, getCell st1.cols sr (strCol g') = some sv :=
    fun g' hg' => hpres g' (by rw [hsplit]; exact List.mem_append_left _ hg')
  have hpresP2 : ∀ g' ∈ P2, (∃ f1, getCell st1.cols sr (nameCol g') = some f1) ∧
      ∃ sv, getCell st1.cols sr (strCol g') = some sv :=
    fun g' hg' => hpres g' (by
      rw [hsplit]
      exact List.mem_append_right P1 (List.mem_cons_of_mem g hg'))
  obtain ⟨st2, hslots1, hinv2, hmono2⟩ :=
    rowSlots_inv t r st1.cols sr P1 st1 hinv1 hpresP1
  have hfng : getCell st1.cols sr (nameCol g) = some (Val.str f) := by
    rw [hval g hgpops, hname]
  have hstg : getCell st1.cols sr (strCol g) = some s0 := by
    rw [hvalstr, hs0]
  obtain ⟨st3, hstepg, hinv3, hcols3, -, -, hwrite3, hmem3⟩ :=
    slotStep_cases t r st1.cols sr st2 g (Val.str f) s0 hfng hstg hinv2
  have hcell3 : cellAt st3 r (pyStr (Val.str f) ++ "_EXPLANATION_STRENGTH") = some s0 :=
    hwrite3 (by rw [hinv2.rlen]; exact hr)
  have hnmP2 : ∀ g' ∈ P2, ∀ v, getCell st1.cols sr (nameCol g') = some v →
      pyStr v ≠ f := by
    intro g' hg' v hv
    apply hlater g' hg' v
    rw [← hval g' (by
      rw [hsplit]
      exact List.mem_append_right P1 (List.mem_cons_of_mem g hg'))]
    exact hv
  obtain ⟨st4, hslots2, hinv4, hmono4, hcell4⟩ :=
    rowSlots_nomatch t r st1.cols sr f P2 st3 hinv3 hpresP2 hnmP2
  have hcellR : cellAt st4 r (f ++ "_EXPLANATION_STRENGTH") = some s0 := by
    rw [hcell4 r]
    exact hcell3
  have hmem4 : (f ++ "_EXPLANATION_STRENGTH") ∈ st4.cols := hmono4 _ hmem3
  have hslotsfull : rowSlots r st1.cols sr (P1 ++ g :: P2) st1 = Except.ok st4 := by
    rw [rowSlots_append r st1.cols sr P1 (g :: P2) st1, hslots1]
    show rowSlots r st1.cols sr (g :: P2) st2 = Except.ok st4
    show (match slotStep r st1.cols sr st2 g with
      | Except.ok st' => rowSlots r st1.cols sr P2 st'
      | Except.error e => Except.error e) = Except.ok st4
    rw [hstepg]
    exact hslots2
  have hne3 : ∀ i ∈ List.range' (r + 1) (t.rows.length - r - 1), i ≠ r := by
    intro i hi
    rw [List.mem_range'] at hi
    obtain ⟨j, hj, hij⟩ := hi
    omega
  obtain ⟨fin, hph3, hinvf, hcellf, hmemf⟩ :=
    rowLoop_preserve t (id_explan_columns t).2 r (f ++ "_EXPLANATION_STRENGTH") hcols
      (List.range' (r + 1) (t.rows.length - r - 1)) st4 hinv4 hne3 hmem4
  have hloop : flatLoop t = Except.ok fin := by
    unfold flatLoop
    rw [range_split t.rows.length r hr, rowLoop_append, hph1]
    show rowLoop (id_explan_columns t).2
      (r :: List.range' (r + 1) (t.rows.length - r - 1)) st1 = Except.ok fin
    rw [rowLoop_cons, rowStep_some (id_explan_columns t).2 st1 r sr hsr]
    rw [show rowSlots r st1.cols sr (id_explan_columns t).2 st1 = Except.ok st4 from by
      rw [hsplit]
      exact hslotsfull]
    exact hph3
  refine ⟨dropCols fin (id_explan_columns t).1, ?_, ?_⟩
  · unfold return_explanations_flat
    rw [hloop]
  · have hnotE : (f ++ "_EXPLANATION_STRENGTH") ∉ (id_explan_columns t).1 :=
      not_mem_expCols_of_EScol t hc _ (EScol_append f)
    rw [cellAt_dropCols fin hinvf.wf (id_explan_columns t).1 _ hnotE r, hcellf, hcellR, hs0]

/-- Witness for C4: on the spec scenario table, row 1's populated slot 0
carries feature name "income", and the flat output's
income_EXPLANATION_STRENGTH cell at row 1 equals that slot's strength. -/
theorem C4_witness :
    ∃ out, return_explanations_flat scenarioTable = Except.ok out ∧
      cellAt out 1 ("income" ++ "_EXPLANATION_STRENGTH") =
        cellAt scenarioTable 1 (strCol "0") :=
  C4_flat_completeness scenarioTable (by decide) (by decide) 1 "0" "income" [] ["1"]
    (by decide) (by decide)
    (by
      intro g' hg' v hv
      have hg : g' = "1" := List.mem_singleton.mp hg'
      subst hg
      have hcell : cellAt scenarioTable 1 (nameCol "1") = some Val.null := by decide
      rw [hcell] at hv
      injection hv with hv2
      subst hv2
      decide)
